import Mathlib

/-!
Verification of the signify KERI/CESR core (Rust) against its specification.

The Rust sources under `src/native/signify_rs/src/core/` are shallowly embedded
here: strings are `List Char`, byte sequences are `List Nat` (each element a
byte value `< 256`), fallible constructors return `Except Err`, and the
external cryptographic primitives (BLAKE3 and friends, Ed25519, Argon2id,
X25519 sealed boxes, the OS RNG, the wall clock) are abstracted as an explicit
`Env` parameter, exactly as the Rust code treats them as opaque library calls.
Every theorem quantifying over `Env` therefore holds in particular for the
real primitives; concrete witnesses instantiate `Env` with small executable
functions. -/

namespace Signify

/-- Character strings of the embedding ("String" / "str" in the source). -/
abbrev Str := List Char

/-- Byte sequences of the embedding ("Vec of u8" in the source). -/
abbrev Bytes := List Nat

/-- Convert an ASCII string to its UTF-8 bytes.  All strings handled by the
claims are ASCII, where the source's byte view is exactly the per-character
code point. -/
def strBytes (s : Str) : Bytes := s.map Char.toNat

/-- Convert bytes back to characters (UTF-8 decoding restricted to ASCII). -/
def bytesChars (b : Bytes) : Str := b.map Char.ofNat

/-- The error taxonomy of error.rs, stripped of its message payloads (the
messages never influence control flow). -/
inductive Err where
  | emptyMaterial
  | invalidCode
  | invalidSize (expected actual : Nat)
  | invalidCesr
  | base64Error
  | invalidEvent
  | invalidFormat
  | invalidArgument
  | invalidIndex
  | invalidAlgorithm
  | invalidKey
  | decryptionError
  | unsupportedAlgorithm
  | serializationError
  | other
  deriving DecidableEq, Repr

/-! ## URL-safe base64 without padding

Model of the base64 crate's URL_SAFE_NO_PAD engine, used by matter.rs,
indexer.rs and utils.rs.  Encoding maps three bytes to four characters; a
final remainder of one or two bytes becomes two or three characters.
Decoding is strict: it rejects characters outside the alphabet, a remainder
of one character, and non-zero trailing bits (the crate's default
decode_allow_trailing_bits = false). -/

/-- The URL-safe base64 alphabet, index to character. -/
def b64Char (n : Nat) : Char :=
  if n < 26 then Char.ofNat (65 + n)
  else if n < 52 then Char.ofNat (97 + (n - 26))
  else if n < 62 then Char.ofNat (48 + (n - 52))
  else if n = 62 then '-'
  else '_'

/-- The URL-safe base64 alphabet, character to index. -/
def b64Index (c : Char) : Option Nat :=
  if 65 ≤ c.toNat ∧ c.toNat ≤ 90 then some (c.toNat - 65)
  else if 97 ≤ c.toNat ∧ c.toNat ≤ 122 then some (26 + (c.toNat - 97))
  else if 48 ≤ c.toNat ∧ c.toNat ≤ 57 then some (52 + (c.toNat - 48))
  else if c = '-' then some 62
  else if c = '_' then some 63
  else none

/-- Encode bytes as unpadded URL-safe base64. -/
def b64Encode : Bytes → Str
  | b0 :: b1 :: b2 :: rest =>
      b64Char (b0 / 4) :: b64Char (b0 % 4 * 16 + b1 / 16) ::
      b64Char (b1 % 16 * 4 + b2 / 64) :: b64Char (b2 % 64) :: b64Encode rest
  | [b0, b1] =>
      [b64Char (b0 / 4), b64Char (b0 % 4 * 16 + b1 / 16), b64Char (b1 % 16 * 4)]
  | [b0] => [b64Char (b0 / 4), b64Char (b0 % 4 * 16)]
  | [] => []

/-- Decode unpadded URL-safe base64; `none` on invalid characters, on a
length that is 1 mod 4, or on non-zero trailing bits. -/
def b64Decode : Str → Option Bytes
  | c0 :: c1 :: c2 :: c3 :: rest =>
      match b64Index c0, b64Index c1, b64Index c2, b64Index c3, b64Decode rest with
      | some s0, some s1, some s2, some s3, some tail =>
          some ((s0 * 4 + s1 / 16) :: (s1 % 16 * 16 + s2 / 4) :: (s2 % 4 * 64 + s3) :: tail)
      | _, _, _, _, _ => none
  | [c0, c1, c2] =>
      match b64Index c0, b64Index c1, b64Index c2 with
      | some s0, some s1, some s2 =>
          if s2 % 4 = 0 then some [s0 * 4 + s1 / 16, s1 % 16 * 16 + s2 / 4] else none
      | _, _, _ => none
  | [c0, c1] =>
      match b64Index c0, b64Index c1 with
      | some s0, some s1 => if s1 % 16 = 0 then some [s0 * 4 + s1 / 16] else none
      | _, _ => none
  | [_] => none
  | [] => some []

/-- Length of the unpadded base64 encoding of n bytes. -/
def b64Len (n : Nat) : Nat := n / 3 * 4 + (if n % 3 = 0 then 0 else n % 3 + 1)

theorem b64Index_b64Char : ∀ k, k < 64 → b64Index (b64Char k) = some k := by decide

theorem b64Char_b64Index {c : Char} {k : Nat} (h : b64Index c = some k) :
    b64Char k = c := by
  unfold b64Index at h
  by_cases h1 : 65 ≤ c.toNat ∧ c.toNat ≤ 90
  · rw [if_pos h1] at h
    obtain rfl : c.toNat - 65 = k := by exact Option.some.inj h
    unfold b64Char
    rw [if_pos (by omega)]
    rw [show 65 + (c.toNat - 65) = c.toNat by omega, Char.ofNat_toNat]
  · rw [if_neg h1] at h
    by_cases h2 : 97 ≤ c.toNat ∧ c.toNat ≤ 122
    · rw [if_pos h2] at h
      obtain rfl : 26 + (c.toNat - 97) = k := Option.some.inj h
      unfold b64Char
      rw [if_neg (by omega), if_pos (by omega)]
      rw [show 97 + (26 + (c.toNat - 97) - 26) = c.toNat by omega, Char.ofNat_toNat]
    · rw [if_neg h2] at h
      by_cases h3 : 48 ≤ c.toNat ∧ c.toNat ≤ 57
      · rw [if_pos h3] at h
        obtain rfl : 52 + (c.toNat - 48) = k := Option.some.inj h
        unfold b64Char
        rw [if_neg (by omega), if_neg (by omega), if_pos (by omega)]
        rw [show 48 + (52 + (c.toNat - 48) - 52) = c.toNat by omega, Char.ofNat_toNat]
      · rw [if_neg h3] at h
        by_cases h4 : c = '-'
        · rw [if_pos h4] at h
          obtain rfl : 62 = k := Option.some.inj h
          subst h4; rfl
        · rw [if_neg h4] at h
          by_cases h5 : c = '_'
          · rw [if_pos h5] at h
            obtain rfl : 63 = k := Option.some.inj h
            subst h5; rfl
          · rw [if_neg h5] at h; exact absurd h (by simp)

theorem b64Index_lt {c : Char} {k : Nat} (h : b64Index c = some k) : k < 64 := by
  unfold b64Index at h
  repeat' split at h
  all_goals cases h
  all_goals omega

theorem b64Decode_cons4 {c0 c1 c2 c3 : Char} {rest : Str} {s0 s1 s2 s3 : Nat} {tail : Bytes}
    (h0 : b64Index c0 = some s0) (h1 : b64Index c1 = some s1)
    (h2 : b64Index c2 = some s2) (h3 : b64Index c3 = some s3)
    (ht : b64Decode rest = some tail) :
    b64Decode (c0 :: c1 :: c2 :: c3 :: rest) =
      some ((s0 * 4 + s1 / 16) :: (s1 % 16 * 16 + s2 / 4) :: (s2 % 4 * 64 + s3) :: tail) := by
  simp [b64Decode, h0, h1, h2, h3, ht]

theorem b64Decode_three {c0 c1 c2 : Char} {s0 s1 s2 : Nat}
    (h0 : b64Index c0 = some s0) (h1 : b64Index c1 = some s1)
    (h2 : b64Index c2 = some s2) (hz : s2 % 4 = 0) :
    b64Decode [c0, c1, c2] = some [s0 * 4 + s1 / 16, s1 % 16 * 16 + s2 / 4] := by
  simp [b64Decode, h0, h1, h2, hz]

theorem b64Decode_two {c0 c1 : Char} {s0 s1 : Nat}
    (h0 : b64Index c0 = some s0) (h1 : b64Index c1 = some s1) (hz : s1 % 16 = 0) :
    b64Decode [c0, c1] = some [s0 * 4 + s1 / 16] := by
  simp [b64Decode, h0, h1, hz]

theorem b64Decode_cons4_inv {c0 c1 c2 c3 : Char} {rest : Str} {bs : Bytes}
    (h : b64Decode (c0 :: c1 :: c2 :: c3 :: rest) = some bs) :
    ∃ s0 s1 s2 s3 tail, b64Index c0 = some s0 ∧ b64Index c1 = some s1 ∧
      b64Index c2 = some s2 ∧ b64Index c3 = some s3 ∧ b64Decode rest = some tail ∧
      bs = (s0 * 4 + s1 / 16) :: (s1 % 16 * 16 + s2 / 4) :: (s2 % 4 * 64 + s3) :: tail := by
  rcases hs0 : b64Index c0 with _ | s0 <;>
  rcases hs1 : b64Index c1 with _ | s1 <;>
  rcases hs2 : b64Index c2 with _ | s2 <;>
  rcases hs3 : b64Index c3 with _ | s3 <;>
  rcases ht : b64Decode rest with _ | tail <;>
    simp only [b64Decode, hs0, hs1, hs2, hs3, ht] at h <;>
    cases h
  exact ⟨s0, s1, s2, s3, tail, rfl, rfl, rfl, rfl, rfl, rfl⟩

theorem b64Decode_three_inv {c0 c1 c2 : Char} {bs : Bytes}
    (h : b64Decode [c0, c1, c2] = some bs) :
    ∃ s0 s1 s2, b64Index c0 = some s0 ∧ b64Index c1 = some s1 ∧
      b64Index c2 = some s2 ∧ s2 % 4 = 0 ∧
      bs = [s0 * 4 + s1 / 16, s1 % 16 * 16 + s2 / 4] := by
  rcases hs0 : b64Index c0 with _ | s0 <;>
  rcases hs1 : b64Index c1 with _ | s1 <;>
  rcases hs2 : b64Index c2 with _ | s2 <;>
    simp only [b64Decode, hs0, hs1, hs2] at h <;>
    (try cases h)
  split at h
  case isTrue hz => cases h; exact ⟨s0, s1, s2, rfl, rfl, rfl, hz, rfl⟩
  case isFalse => cases h

theorem b64Decode_two_inv {c0 c1 : Char} {bs : Bytes}
    (h : b64Decode [c0, c1] = some bs) :
    ∃ s0 s1, b64Index c0 = some s0 ∧ b64Index c1 = some s1 ∧ s1 % 16 = 0 ∧
      bs = [s0 * 4 + s1 / 16] := by
  rcases hs0 : b64Index c0 with _ | s0 <;>
  rcases hs1 : b64Index c1 with _ | s1 <;>
    simp only [b64Decode, hs0, hs1] at h <;>
    (try cases h)
  split at h
  case isTrue hz => cases h; exact ⟨s0, s1, rfl, rfl, hz, rfl⟩
  case isFalse => cases h

theorem b64Decode_b64Encode : ∀ bs : Bytes, (∀ b ∈ bs, b < 256) →
    b64Decode (b64Encode bs) = some bs := by
  intro bs
  induction bs using b64Encode.induct with
  | case1 b0 b1 b2 rest ih =>
    intro hb
    have h0 : b0 < 256 := hb b0 (by simp)
    have h1 : b1 < 256 := hb b1 (by simp)
    have h2 : b2 < 256 := hb b2 (by simp)
    have ht := ih (fun b hbm => hb b (by simp [hbm]))
    simp only [b64Encode]
    rw [b64Decode_cons4 (b64Index_b64Char _ (by omega)) (b64Index_b64Char _ (by omega))
      (b64Index_b64Char _ (by omega)) (b64Index_b64Char _ (by omega)) ht]
    simp only [Option.some.injEq, List.cons.injEq, and_true]
    refine ⟨by omega, by omega, by omega⟩
  | case2 b0 b1 =>
    intro hb
    have h0 : b0 < 256 := hb b0 (by simp)
    have h1 : b1 < 256 := hb b1 (by simp)
    simp only [b64Encode]
    rw [b64Decode_three (b64Index_b64Char _ (by omega)) (b64Index_b64Char _ (by omega))
      (b64Index_b64Char _ (by omega)) (by omega)]
    simp only [Option.some.injEq, List.cons.injEq, and_true]
    refine ⟨by omega, by omega⟩
  | case3 b0 =>
    intro hb
    have h0 : b0 < 256 := hb b0 (by simp)
    simp only [b64Encode]
    rw [b64Decode_two (b64Index_b64Char _ (by omega)) (b64Index_b64Char _ (by omega))
      (by omega)]
    simp only [Option.some.injEq, List.cons.injEq, and_true]
    omega
  | case4 => intro _; rfl

theorem b64Encode_b64Decode_aux : ∀ n : Nat, ∀ cs : Str, cs.length ≤ n → ∀ bs : Bytes,
    b64Decode cs = some bs → b64Encode bs = cs := by
  intro n
  induction n with
  | zero =>
    intro cs hlen bs h
    rw [List.length_eq_zero.mp (Nat.le_zero.mp hlen)] at h ⊢
    cases h; rfl
  | succ n ih =>
    intro cs hlen bs h
    rcases cs with _ | ⟨c0, _ | ⟨c1, _ | ⟨c2, _ | ⟨c3, rest⟩⟩⟩⟩
    · cases h; rfl
    · cases h
    · obtain ⟨s0, s1, hs0, hs1, hz, rfl⟩ := b64Decode_two_inv h
      have l0 := b64Index_lt hs0
      have l1 := b64Index_lt hs1
      simp only [b64Encode, List.cons.injEq, and_true]
      constructor
      · rw [show (s0 * 4 + s1 / 16) / 4 = s0 by omega]; exact b64Char_b64Index hs0
      · rw [show (s0 * 4 + s1 / 16) % 4 * 16 = s1 by omega]; exact b64Char_b64Index hs1
    · obtain ⟨s0, s1, s2, hs0, hs1, hs2, hz, rfl⟩ := b64Decode_three_inv h
      have l0 := b64Index_lt hs0
      have l1 := b64Index_lt hs1
      have l2 := b64Index_lt hs2
      simp only [b64Encode, List.cons.injEq, and_true]
      refine ⟨?_, ?_, ?_⟩
      · rw [show (s0 * 4 + s1 / 16) / 4 = s0 by omega]; exact b64Char_b64Index hs0
      · rw [show (s0 * 4 + s1 / 16) % 4 * 16 + (s1 % 16 * 16 + s2 / 4) / 16 = s1 by omega]
        exact b64Char_b64Index hs1
      · rw [show (s1 % 16 * 16 + s2 / 4) % 16 * 4 = s2 by omega]
        exact b64Char_b64Index hs2
    · obtain ⟨s0, s1, s2, s3, tail, hs0, hs1, hs2, hs3, ht, rfl⟩ := b64Decode_cons4_inv h
      have l0 := b64Index_lt hs0
      have l1 := b64Index_lt hs1
      have l2 := b64Index_lt hs2
      have l3 := b64Index_lt hs3
      have hr : rest.length ≤ n := by
        simp only [List.length_cons] at hlen; omega
      simp only [b64Encode, List.cons.injEq]
      refine ⟨?_, ?_, ?_, ?_, ih rest hr tail ht⟩
      · rw [show (s0 * 4 + s1 / 16) / 4 = s0 by omega]; exact b64Char_b64Index hs0
      · rw [show (s0 * 4 + s1 / 16) % 4 * 16 + (s1 % 16 * 16 + s2 / 4) / 16 = s1 by omega]
        exact b64Char_b64Index hs1
      · rw [show (s1 % 16 * 16 + s2 / 4) % 16 * 4 + (s2 % 4 * 64 + s3) / 64 = s2 by omega]
        exact b64Char_b64Index hs2
      · rw [show (s2 % 4 * 64 + s3) % 64 = s3 by omega]; exact b64Char_b64Index hs3

theorem b64Encode_b64Decode {cs : Str} {bs : Bytes} (h : b64Decode cs = some bs) :
    b64Encode bs = cs :=
  b64Encode_b64Decode_aux cs.length cs le_rfl bs h

theorem b64Encode_length : ∀ bs : Bytes, (b64Encode bs).length = b64Len bs.length := by
  intro bs
  induction bs using b64Encode.induct with
  | case1 b0 b1 b2 rest ih =>
    simp only [b64Encode, List.length_cons, ih, b64Len]
    rw [show (rest.length + 3) % 3 = rest.length % 3 from by omega]
    rcases (show rest.length % 3 = 0 ∨ rest.length % 3 = 1 ∨ rest.length % 3 = 2 from
      by omega) with h | h | h <;> rw [h] <;> norm_num <;> omega
  | case2 b0 b1 => simp [b64Encode, b64Len]
  | case3 b0 => simp [b64Encode, b64Len]
  | case4 => rfl

theorem b64Decode_bytes_lt_aux : ∀ n : Nat, ∀ cs : Str, cs.length ≤ n → ∀ bs : Bytes,
    b64Decode cs = some bs → ∀ b ∈ bs, b < 256 := by
  intro n
  induction n with
  | zero =>
    intro cs hlen bs h
    rw [List.length_eq_zero.mp (Nat.le_zero.mp hlen)] at h
    cases h; intro b hb; cases hb
  | succ n ih =>
    intro cs hlen bs h
    rcases cs with _ | ⟨c0, _ | ⟨c1, _ | ⟨c2, _ | ⟨c3, rest⟩⟩⟩⟩
    · cases h; intro b hb; cases hb
    · cases h
    · obtain ⟨s0, s1, hs0, hs1, hz, rfl⟩ := b64Decode_two_inv h
      have l0 := b64Index_lt hs0
      have l1 := b64Index_lt hs1
      intro b hb
      simp only [List.mem_singleton] at hb
      omega
    · obtain ⟨s0, s1, s2, hs0, hs1, hs2, hz, rfl⟩ := b64Decode_three_inv h
      have l0 := b64Index_lt hs0
      have l1 := b64Index_lt hs1
      have l2 := b64Index_lt hs2
      intro b hb
      simp only [List.mem_cons, List.not_mem_nil, or_false] at hb
      rcases hb with h | h <;> omega
    · obtain ⟨s0, s1, s2, s3, tail, hs0, hs1, hs2, hs3, ht, rfl⟩ := b64Decode_cons4_inv h
      have l0 := b64Index_lt hs0
      have l1 := b64Index_lt hs1
      have l2 := b64Index_lt hs2
      have l3 := b64Index_lt hs3
      have hr : rest.length ≤ n := by
        simp only [List.length_cons] at hlen; omega
      intro b hb
      simp only [List.mem_cons] at hb
      rcases hb with h | h | h | h
      · omega
      · omega
      · omega
      · exact ih rest hr tail ht b h

theorem b64Decode_bytes_lt {cs : Str} {bs : Bytes} (h : b64Decode cs = some bs) :
    ∀ b ∈ bs, b < 256 :=
  b64Decode_bytes_lt_aux cs.length cs le_rfl bs h

/-! ## Association lists

The key stores and JSON objects of the source are string-keyed maps; we model
them as association lists with a first-match lookup. -/

/-- First-match lookup in an association list. -/
def alookup {α β : Type} [DecidableEq α] (k : α) : List (α × β) → Option β
  | [] => none
  | (k', v) :: rest => if k = k' then some v else alookup k rest

theorem alookup_mem {α β : Type} [DecidableEq α] {k : α} {v : β} :
    ∀ {l : List (α × β)}, alookup k l = some v → (k, v) ∈ l := by
  intro l
  induction l with
  | nil => intro h; cases h
  | cons p rest ih =>
    intro h
    obtain ⟨k', v'⟩ := p
    simp only [alookup] at h
    split at h
    case isTrue he => cases h; subst he; exact List.mem_cons_self _ _
    case isFalse => exact List.mem_cons_of_mem _ (ih h)

/-! ## CESR code tables (codes.rs) -/

/-- Size record of a CESR code: hard size, soft size, optional full size and
lead size; mirror of the Sizage struct in codes.rs. -/
structure Sizage where
  hs : Nat
  ss : Nat
  fs : Option Nat
  ls : Nat
  deriving DecidableEq, Repr

/-- The SIZES table of codes.rs, in source order. -/
def SIZES : List (Str × Sizage) := [
  (['A'], ⟨1, 0, some 44, 0⟩),
  (['B'], ⟨1, 0, some 44, 0⟩),
  (['C'], ⟨1, 0, some 44, 0⟩),
  (['D'], ⟨1, 0, some 44, 0⟩),
  (['E'], ⟨1, 0, some 44, 0⟩),
  (['F'], ⟨1, 0, some 44, 0⟩),
  (['G'], ⟨1, 0, some 44, 0⟩),
  (['H'], ⟨1, 0, some 44, 0⟩),
  (['I'], ⟨1, 0, some 44, 0⟩),
  (['J'], ⟨1, 0, some 44, 0⟩),
  (['K'], ⟨1, 0, some 76, 0⟩),
  (['L'], ⟨1, 0, some 76, 0⟩),
  (['M'], ⟨1, 0, some 4, 0⟩),
  (['N'], ⟨1, 0, some 12, 0⟩),
  (['O'], ⟨1, 0, some 44, 0⟩),
  (['P'], ⟨1, 0, some 124, 0⟩),
  (['Q'], ⟨1, 0, some 44, 0⟩),
  (['0', 'A'], ⟨2, 0, some 24, 0⟩),
  (['0', 'B'], ⟨2, 0, some 88, 0⟩),
  (['0', 'C'], ⟨2, 0, some 88, 0⟩),
  (['0', 'D'], ⟨2, 0, some 88, 0⟩),
  (['0', 'E'], ⟨2, 0, some 88, 0⟩),
  (['0', 'F'], ⟨2, 0, some 88, 0⟩),
  (['0', 'G'], ⟨2, 0, some 88, 0⟩),
  (['0', 'H'], ⟨2, 0, some 8, 0⟩),
  (['0', 'I'], ⟨2, 0, some 88, 0⟩),
  (['2', 'A'], ⟨2, 4, some 92, 0⟩),
  (['2', 'B'], ⟨2, 4, some 92, 0⟩),
  (['2', 'C'], ⟨2, 4, some 92, 0⟩),
  (['2', 'D'], ⟨2, 4, some 92, 0⟩),
  (['2', 'E'], ⟨2, 4, some 92, 0⟩),
  (['2', 'F'], ⟨2, 4, some 92, 0⟩),
  (['3', 'A'], ⟨2, 6, some 160, 0⟩),
  (['3', 'B'], ⟨2, 6, some 160, 0⟩),
  (['1', 'A', 'A', 'A'], ⟨4, 0, some 48, 0⟩),
  (['1', 'A', 'A', 'B'], ⟨4, 0, some 48, 0⟩),
  (['1', 'A', 'A', 'C'], ⟨4, 0, some 80, 0⟩),
  (['1', 'A', 'A', 'D'], ⟨4, 0, some 80, 0⟩),
  (['1', 'A', 'A', 'E'], ⟨4, 0, some 56, 0⟩),
  (['1', 'A', 'A', 'F'], ⟨4, 0, some 8, 0⟩),
  (['1', 'A', 'A', 'G'], ⟨4, 0, some 36, 0⟩),
  (['1', 'A', 'A', 'H'], ⟨4, 0, some 100, 0⟩),
  (['1', 'A', 'A', 'I'], ⟨4, 0, some 48, 0⟩),
  (['1', 'A', 'A', 'J'], ⟨4, 0, some 48, 0⟩),
  (['4', 'A'], ⟨2, 2, none, 0⟩),
  (['5', 'A'], ⟨2, 2, none, 1⟩),
  (['6', 'A'], ⟨2, 2, none, 2⟩),
  (['7', 'A', 'A', 'A'], ⟨4, 4, none, 0⟩),
  (['8', 'A', 'A', 'A'], ⟨4, 4, none, 1⟩),
  (['9', 'A', 'A', 'A'], ⟨4, 4, none, 2⟩)]

/-- The HARDS table: first character of a code to hard size. -/
def hards (c : Char) : Option Nat :=
  if 'A' ≤ c ∧ c ≤ 'Q' then some 1
  else if c = '0' ∨ c = '2' ∨ c = '3' then some 2
  else if c = '1' then some 4
  else if c = '4' ∨ c = '5' ∨ c = '6' then some 2
  else if c = '7' ∨ c = '8' ∨ c = '9' then some 4
  else none

/-- Mirror of extract_code in codes.rs. -/
def extractCode (q : Str) : Except Err Str :=
  match q with
  | [] => .error .invalidCesr
  | c :: _ =>
    match hards c with
    | none => .error .invalidCode
    | some hs => if q.length < hs then .error .invalidCesr else .ok (q.take hs)

/-- Mirror of sizage in codes.rs. -/
def sizage (code : Str) : Except Err Sizage :=
  match alookup code SIZES with
  | some sz => .ok sz
  | none => .error .invalidCode

/-- Mirror of raw_size in codes.rs: for fixed-size codes the raw length is
recovered from the full size by `(fs - hs) * 3 / 4 - ls`. -/
def rawSize (code : Str) : Except Err Nat :=
  match sizage code with
  | .error e => .error e
  | .ok sz =>
    match sz.fs with
    | some fs => .ok ((fs - sz.hs) * 3 / 4 - sz.ls)
    | none => .error .invalidCode

/-! ## Matter (matter.rs) -/

/-- A CESR primitive: code, raw payload and its two derived encodings.  The
qb64b field of the Rust struct is always the byte view of qb64 and is left as
the function strBytes. -/
structure Matter where
  code : Str
  raw : Bytes
  qb64 : Str
  qb2 : Bytes
  deriving DecidableEq, Repr

/-- Mirror of Matter::from_raw. -/
def matterFromRaw (raw : Bytes) (code : Str) : Except Err Matter :=
  match sizage code with
  | .error e => .error e
  | .ok _sz =>
    match rawSize code with
    | .error e => .error e
    | .ok expected =>
      if raw.length ≠ expected then .error (.invalidSize expected raw.length)
      else .ok ⟨code, raw, code ++ b64Encode raw, strBytes code ++ raw⟩

/-- Mirror of Matter::from_qb64.  The source byte-slices the string at the
hard size; all strings in play are ASCII, where that is character slicing. -/
def matterFromQb64 (q : Str) : Except Err Matter :=
  if q.isEmpty then .error .invalidCesr
  else
    match extractCode q with
    | .error e => .error e
    | .ok code =>
      match sizage code with
      | .error e => .error e
      | .ok sz =>
        let sized : Except Err Unit :=
          match sz.fs with
          | some fs =>
            if q.length ≠ fs then .error (.invalidSize fs q.length) else .ok ()
          | none => .ok ()
        match sized with
        | .error e => .error e
        | .ok () =>
          match b64Decode (q.drop sz.hs) with
          | none => .error .base64Error
          | some raw =>
            match rawSize code with
            | .error e => .error e
            | .ok expected =>
              if raw.length ≠ expected then .error (.invalidSize expected raw.length)
              else .ok ⟨code, raw, q, strBytes code ++ raw⟩

/-- Mirror of Matter::from_qb2.  The source lossy-decodes the first
min(4, len) bytes as UTF-8 and byte-slices the result at the hard size; a
non-ASCII first byte decodes to the replacement character (not in HARDS), and
a non-ASCII byte elsewhere inside the code prefix makes the Rust byte-slice
panic, modelled here as an error.  For byte strings produced by from_raw the
code prefix is ASCII and none of this applies. -/
def matterFromQb2 (q : Bytes) : Except Err Matter :=
  match q with
  | [] => .error .invalidCesr
  | b0 :: _ =>
    if 128 ≤ b0 then .error .invalidCode
    else
      match hards (Char.ofNat b0) with
      | none => .error .invalidCode
      | some hs =>
        if (q.take 4).length < hs then .error .invalidCesr
        else if (q.take hs).any (fun b => 128 ≤ b) then .error .invalidCesr
        else
          let code := bytesChars (q.take hs)
          match sizage code with
          | .error e => .error e
          | .ok _sz =>
            let raw := q.drop hs
            match rawSize code with
            | .error e => .error e
            | .ok expected =>
              if raw.length ≠ expected then .error (.invalidSize expected raw.length)
              else .ok ⟨code, raw, code ++ b64Encode raw, q⟩

theorem bytesChars_strBytes (s : Str) : bytesChars (strBytes s) = s := by
  simp [bytesChars, strBytes, List.map_map, Function.comp_def, Char.ofNat_toNat]

/-- Static well-formedness of a fixed-size table entry, checked once over the
whole SIZES table: the hard size is the code length, agrees with HARDS, the
code is ASCII, and the full size is consistent with the recovered raw size. -/
def fixedCodeOk (code : Str) (sz : Sizage) : Bool :=
  match sz.fs with
  | none => true
  | some fs =>
    match code with
    | [] => false
    | c :: _ =>
      hards c = some sz.hs ∧ code.length = sz.hs ∧ sz.hs ≤ 4 ∧
      code.all (fun ch => ch.toNat < 128) ∧
      1 ≤ (fs - sz.hs) * 3 / 4 - sz.ls ∧
      sz.hs + b64Len ((fs - sz.hs) * 3 / 4 - sz.ls) = fs

theorem SIZES_fixedCodeOk : ∀ p ∈ SIZES, fixedCodeOk p.1 p.2 = true := by decide

/-- C8: for every fixed-size code in the size table and every raw byte string
of the code's prescribed length, the Matter built by from_raw decodes back
from its qb64 to the same (raw, code) pair, and likewise from its qb2. -/
theorem claimC8_codec_roundtrip (code : Str) (sz : Sizage) (fs : Nat)
    (hsz : sizage code = .ok sz) (hfs : sz.fs = some fs)
    (raw : Bytes) (n : Nat) (hn : rawSize code = .ok n)
    (hlen : raw.length = n) (hbytes : ∀ b ∈ raw, b < 256) :
    ∃ m : Matter, matterFromRaw raw code = .ok m ∧ m.code = code ∧ m.raw = raw ∧
      matterFromQb64 m.qb64 = .ok m ∧ matterFromQb2 m.qb2 = .ok m := by
  -- recover the table entry and its static facts
  have halk : alookup code SIZES = some sz := by
    unfold sizage at hsz
    rcases h : alookup code SIZES with _ | sz'
    · rw [h] at hsz; cases hsz
    · rw [h] at hsz; cases hsz; rfl
  have hok := SIZES_fixedCodeOk _ (alookup_mem halk)
  simp only [fixedCodeOk, hfs] at hok
  rcases hcode : code with _ | ⟨c, cr⟩
  · rw [hcode] at hok; cases hok
  rw [hcode] at hok
  simp only [decide_eq_true_eq, Bool.and_eq_true, List.all_eq_true] at hok
  obtain ⟨hhards, hclen, hhs4, hascii, hn1, hfseq⟩ := hok
  subst hcode
  -- pin down n
  have hneq : n = (fs - sz.hs) * 3 / 4 - sz.ls := by
    simp only [rawSize, hsz, hfs, Except.ok.injEq] at hn
    omega
  rw [← hneq] at hfseq hn1
  -- from_raw succeeds
  have hfr : matterFromRaw raw (c :: cr) =
      .ok ⟨c :: cr, raw, (c :: cr) ++ b64Encode raw, strBytes (c :: cr) ++ raw⟩ := by
    simp only [matterFromRaw, hsz, hn]
    rw [if_neg (by omega)]
  refine ⟨⟨c :: cr, raw, (c :: cr) ++ b64Encode raw, strBytes (c :: cr) ++ raw⟩,
    hfr, rfl, rfl, ?_, ?_⟩
  · -- qb64 round trip
    have hblen : (b64Encode raw).length = b64Len n := by
      rw [b64Encode_length, hlen]
    have hqlen : ((c :: cr) ++ b64Encode raw).length = fs := by
      rw [List.length_append, hblen, hclen]; exact hfseq
    show matterFromQb64 ((c :: cr) ++ b64Encode raw) = _
    have hext : extractCode ((c :: cr) ++ b64Encode raw) = .ok (c :: cr) := by
      simp only [extractCode, List.cons_append, hhards]
      rw [if_neg (by rw [← List.cons_append, hqlen]; omega)]
      rw [← List.cons_append, ← hclen, List.take_left]
    have hdrop : List.drop sz.hs (c :: (cr ++ b64Encode raw)) = b64Encode raw := by
      rw [← List.cons_append, ← hclen, List.drop_left]
    simp only [matterFromQb64, List.isEmpty_iff, List.cons_append, reduceCtorEq, if_false,
      ← List.cons_append, hext, hsz, hfs, hqlen]
    simp [hdrop, b64Decode_b64Encode raw hbytes, hn, hlen]
  · -- qb2 round trip
    have hc128 : c.toNat < 128 := hascii c (by simp)
    show matterFromQb2 (strBytes (c :: cr) ++ raw) = _
    have hq2 : strBytes (c :: cr) ++ raw = c.toNat :: (strBytes cr ++ raw) := by
      simp [strBytes]
    have hlen2 : (c.toNat :: (strBytes cr ++ raw)).length = sz.hs + n := by
      simp only [List.length_cons, List.length_append, strBytes, List.length_map]
      have : cr.length + 1 = sz.hs := by simpa using hclen
      omega
    have hsblen : (strBytes (c :: cr)).length = sz.hs := by
      simpa [strBytes] using hclen
    have htake : (c.toNat :: (strBytes cr ++ raw)).take sz.hs = strBytes (c :: cr) := by
      rw [← hq2, ← hsblen, List.take_left]
    have hdrop2 : (c.toNat :: (strBytes cr ++ raw)).drop sz.hs = raw := by
      rw [← hq2, ← hsblen, List.drop_left]
    have hany : (strBytes (c :: cr)).any (fun b => decide (128 ≤ b)) = false := by
      simp only [List.any_eq_false, strBytes, List.mem_map, decide_eq_true_eq,
        forall_exists_index, and_imp]
      rintro b ch hch rfl
      have := hascii ch hch
      omega
    rw [hq2]
    simp only [matterFromQb2]
    rw [if_neg (by omega)]
    simp only [Char.ofNat_toNat, hhards]
    rw [if_neg (by rw [List.length_take, hlen2]; omega)]
    rw [htake, hany]
    simp only [Bool.false_eq_true, if_false, bytesChars_strBytes, hsz, hn, hdrop2, hlen]
    simp [hq2]

deriving instance DecidableEq for Except

/-- Witness for C8: the Ed25519 seed code with a 32-zero-byte raw. -/
theorem claimC8_witness :
    sizage ['A'] = .ok ⟨1, 0, some 44, 0⟩ ∧ rawSize ['A'] = .ok 32 ∧
    (∃ m : Matter, matterFromRaw (List.replicate 32 0) ['A'] = .ok m ∧
      m.code = ['A'] ∧ m.raw = List.replicate 32 0 ∧
      matterFromQb64 m.qb64 = .ok m ∧ matterFromQb2 m.qb2 = .ok m) :=
  ⟨by decide, by decide,
    claimC8_codec_roundtrip ['A'] ⟨1, 0, some 44, 0⟩ 44 (by decide) rfl
      (List.replicate 32 0) 32 (by decide) (by decide) (by decide)⟩

/-! ## JSON values and their compact serialization (serde_json)

The SADs the core manipulates are serde_json Values; the fragment the claims
exercise is strings, arrays and objects.  Field order: the specification
prescribes that fields appear in insertion order (the serde_json feature
selection lives outside src/), so objects are insertion-ordered association
lists and insertion keeps the position of an existing key. -/

inductive Json where
  | str (s : Str)
  | arr (elems : List Json)
  | obj (fields : List (Str × Json))

mutual

/-- Decidable equality on JSON values. -/
def jsonDecEq : (a b : Json) → Decidable (a = b)
  | .str s, .str t =>
    match decEq s t with
    | isTrue h => isTrue (h ▸ rfl)
    | isFalse h => isFalse (fun hc => h (Json.str.inj hc))
  | .arr xs, .arr ys =>
    match jsonListDecEq xs ys with
    | isTrue h => isTrue (h ▸ rfl)
    | isFalse h => isFalse (fun hc => h (Json.arr.inj hc))
  | .obj fs, .obj gs =>
    match jsonFieldsDecEq fs gs with
    | isTrue h => isTrue (h ▸ rfl)
    | isFalse h => isFalse (fun hc => h (Json.obj.inj hc))
  | .str _, .arr _ => isFalse (fun hc => Json.noConfusion hc)
  | .str _, .obj _ => isFalse (fun hc => Json.noConfusion hc)
  | .arr _, .str _ => isFalse (fun hc => Json.noConfusion hc)
  | .arr _, .obj _ => isFalse (fun hc => Json.noConfusion hc)
  | .obj _, .str _ => isFalse (fun hc => Json.noConfusion hc)
  | .obj _, .arr _ => isFalse (fun hc => Json.noConfusion hc)

/-- Decidable equality on JSON arrays. -/
def jsonListDecEq : (a b : List Json) → Decidable (a = b)
  | [], [] => isTrue rfl
  | [], _ :: _ => isFalse (fun hc => List.noConfusion hc)
  | _ :: _, [] => isFalse (fun hc => List.noConfusion hc)
  | x :: xs, y :: ys =>
    match jsonDecEq x y with
    | isFalse h => isFalse (fun hc => h (List.cons.inj hc).1)
    | isTrue h1 =>
      match jsonListDecEq xs ys with
      | isTrue h2 => isTrue (h1 ▸ h2 ▸ rfl)
      | isFalse h2 => isFalse (fun hc => h2 (List.cons.inj hc).2)

/-- Decidable equality on JSON object field lists. -/
def jsonFieldsDecEq : (a b : List (Str × Json)) → Decidable (a = b)
  | [], [] => isTrue rfl
  | [], _ :: _ => isFalse (fun hc => List.noConfusion hc)
  | _ :: _, [] => isFalse (fun hc => List.noConfusion hc)
  | (k1, v1) :: xs, (k2, v2) :: ys =>
    match decEq k1 k2 with
    | isFalse h => isFalse (fun hc => h (congrArg Prod.fst (List.cons.inj hc).1))
    | isTrue hk =>
      match jsonDecEq v1 v2 with
      | isFalse h => isFalse (fun hc => h (congrArg Prod.snd (List.cons.inj hc).1))
      | isTrue hv =>
        match jsonFieldsDecEq xs ys with
        | isTrue ht => isTrue (hk ▸ hv ▸ ht ▸ rfl)
        | isFalse h => isFalse (fun hc => h (List.cons.inj hc).2)

end

instance : DecidableEq Json := jsonDecEq

/-- Opening brace character. -/
def lbrace : Char := Char.ofNat 123

/-- Closing brace character. -/
def rbrace : Char := Char.ofNat 125

/-- Lowercase hex digit. -/
def hexDigitLower (n : Nat) : Char :=
  if n < 10 then Char.ofNat (48 + n) else Char.ofNat (87 + n)

/-- serde_json string escaping: short escapes for the common control
characters, a four-hex-digit escape for other control characters, quote and
backslash escaped, everything else passed through. -/
def escapeChar (c : Char) : Str :=
  if c = '"' then ['\\', '"']
  else if c = '\\' then ['\\', '\\']
  else if c = Char.ofNat 8 then ['\\', 'b']
  else if c = Char.ofNat 9 then ['\\', 't']
  else if c = Char.ofNat 10 then ['\\', 'n']
  else if c = Char.ofNat 12 then ['\\', 'f']
  else if c = Char.ofNat 13 then ['\\', 'r']
  else if c.toNat < 32 then
    ['\\', 'u', '0', '0', hexDigitLower (c.toNat / 16), hexDigitLower (c.toNat % 16)]
  else [c]

/-- Escape a whole string. -/
def escapeStr (s : Str) : Str := (s.map escapeChar).flatten

mutual

/-- Compact JSON serialization (serde_json::to_string: no whitespace). -/
def dumps : Json → Str
  | .str s => '"' :: escapeStr s ++ ['"']
  | .arr es => '[' :: dumpsElems es ++ [']']
  | .obj fs => lbrace :: dumpsFields fs ++ [rbrace]

/-- Comma-separated array elements. -/
def dumpsElems : List Json → Str
  | [] => []
  | [e] => dumps e
  | e :: rest => dumps e ++ ',' :: dumpsElems rest

/-- Comma-separated key-value pairs. -/
def dumpsFields : List (Str × Json) → Str
  | [] => []
  | [(k, v)] => '"' :: escapeStr k ++ '"' :: ':' :: dumps v
  | (k, v) :: rest => ('"' :: escapeStr k ++ '"' :: ':' :: dumps v) ++ ',' :: dumpsFields rest

end

/-- Map insertion with insertion-order preservation: replace in place when the
key exists, append otherwise. -/
def objInsert (fields : List (Str × Json)) (k : Str) (v : Json) : List (Str × Json) :=
  if fields.any (fun p => p.1 = k) then
    fields.map (fun p => if p.1 = k then (k, v) else p)
  else fields ++ [(k, v)]

/-- Value::get on an object; None on non-objects, mirroring serde_json. -/
def jget (j : Json) (k : Str) : Option Json :=
  match j with
  | .obj fs => alookup k fs
  | _ => none

/-- Value::get followed by as_str. -/
def jgetStr (j : Json) (k : Str) : Option Str :=
  match jget j k with
  | some (.str s) => some s
  | _ => none

/-- Value::get followed by as_array. -/
def jgetArr (j : Json) (k : Str) : Option (List Json) :=
  match jget j k with
  | some (.arr es) => some es
  | _ => none

/-! ## Version strings (utils.rs) -/

/-- KERI protocol kinds. -/
inductive Protocols where
  | keri
  | acdc
  deriving DecidableEq, Repr

/-- Protocol name. -/
def Protocols.asStr : Protocols → Str
  | .keri => ['K', 'E', 'R', 'I']
  | .acdc => ['A', 'C', 'D', 'C']

/-- Serialization kinds. -/
inductive Serials where
  | json
  | cbor
  | mgpk
  deriving DecidableEq, Repr

/-- Serialization kind name. -/
def Serials.asStr : Serials → Str
  | .json => ['J', 'S', 'O', 'N']
  | .cbor => ['C', 'B', 'O', 'R']
  | .mgpk => ['M', 'G', 'P', 'K']

/-- Protocol version pair. -/
structure Version where
  major : Nat
  minor : Nat
  deriving DecidableEq, Repr

/-- Version 1.0. -/
def VRSN_1_0 : Version := ⟨1, 0⟩

/-- Decimal rendering of a natural number. -/
def natDec (n : Nat) : Str := Nat.toDigits 10 n

/-- Digit loop of lowercase hex rendering, most significant first; the fuel
bounds the digit count (n has at most n digits for n ≥ 1). -/
def hexStrAux : Nat → Nat → Str
  | 0, _ => []
  | fuel + 1, n => if n = 0 then [] else hexStrAux fuel (n / 16) ++ [hexDigitLower (n % 16)]

/-- The Rust x format: minimal lowercase hex digits, 0 rendered as 0. -/
def hexStr (n : Nat) : Str := if n = 0 then ['0'] else hexStrAux n n

/-- The Rust 06x format: lowercase hex zero-padded to at least six digits. -/
def padHex6 (n : Nat) : Str :=
  List.replicate (6 - (hexStr n).length) '0' ++ hexStr n

/-- Mirror of versify in utils.rs.  The Rust builds the size field with a
lowercase hex format specifier and then calls to_uppercase on it, so the
rendered size digits are UPPERCASE hex. -/
def versify (proto : Protocols) (version : Option Version) (kind : Option Serials)
    (size : Nat) : Str :=
  let v := version.getD VRSN_1_0
  let k := kind.getD .json
  proto.asStr ++ natDec v.major ++ natDec v.minor ++ k.asStr ++
    (padHex6 size).map Char.toUpper ++ ['_']

/-- Decimal digit of a character, to_digit(10). -/
def charDigit (c : Char) : Option Nat :=
  if '0' ≤ c ∧ c ≤ '9' then some (c.toNat - 48) else none

/-- Hex digit value of a character, either case. -/
def hexVal (c : Char) : Option Nat :=
  if '0' ≤ c ∧ c ≤ '9' then some (c.toNat - 48)
  else if 'a' ≤ c ∧ c ≤ 'f' then some (c.toNat - 87)
  else if 'A' ≤ c ∧ c ≤ 'F' then some (c.toNat - 55)
  else none

/-- Helper: fold hex digits left to right. -/
def parseHexAux : Str → Nat → Option Nat
  | [], acc => some acc
  | c :: rest, acc =>
    match hexVal c with
    | some d => parseHexAux rest (acc * 16 + d)
    | none => none

/-- usize::from_str_radix(s, 16): an optional leading plus sign, then one or
more hex digits of either case. -/
def parseHexNat (s : Str) : Option Nat :=
  let t := match s with
    | '+' :: rest => rest
    | _ => s
  if t = [] then none else parseHexAux t 0

/-- Mirror of deversify in utils.rs.  The source unwraps to_digit on the two
version characters, panicking on non-digits; the panic is modelled as an
error (no claim exercises that path). -/
def deversify (vs : Str) : Except Err (Protocols × Version × Serials × Nat) :=
  if vs.length < 17 then .error .invalidEvent
  else
    let protoRes : Option Protocols :=
      if vs.take 4 = ['K', 'E', 'R', 'I'] then some .keri
      else if vs.take 4 = ['A', 'C', 'D', 'C'] then some .acdc
      else none
    match protoRes with
    | none => .error .invalidEvent
    | some proto =>
      match charDigit (vs.getD 4 ' '), charDigit (vs.getD 5 ' ') with
      | some major, some minor =>
        let kindRes : Option Serials :=
          if (vs.drop 6).take 4 = ['J', 'S', 'O', 'N'] then some .json
          else if (vs.drop 6).take 4 = ['C', 'B', 'O', 'R'] then some .cbor
          else if (vs.drop 6).take 4 = ['M', 'G', 'P', 'K'] then some .mgpk
          else none
        match kindRes with
        | none => .error .invalidEvent
        | some kind =>
          match parseHexNat ((vs.drop 10).take 6) with
          | none => .error .invalidEvent
          | some size => .ok (proto, ⟨major, minor⟩, kind, size)
      | _, _ => .error .invalidEvent

/-! ## The environment of external primitives

BLAKE3/SHA digests, Ed25519 key derivation and signing, Argon2id stretching,
X25519 sealed boxes, the RNG and the clock are external library calls in the
source.  They are collected in one abstract structure carrying exactly the
length and byte-range facts the Rust type system guarantees (digest and key
sizes, u8 ranges).  Theorems quantify over any such environment. -/

/-- The digest codes supported by compute_digest in diger.rs. -/
def digestCodes : List Str :=
  [['E'], ['0', 'D'], ['I'], ['0', 'G'], ['H'], ['0', 'F']]

/-- Raw digest length per supported code. -/
def digRawLen (code : Str) : Nat :=
  if code = ['E'] ∨ code = ['I'] ∨ code = ['H'] then 32 else 64

/-- Abstract external primitives with their size contracts. -/
structure Env where
  dig : Str → Bytes → Bytes
  pk : Bytes → Bytes
  edSign : Bytes → Bytes → Bytes
  stretch : Bytes → Nat → Str → Nat → Nat → Bytes
  sealBox : Bytes → Bytes
  unsealBox : Bytes → Option Bytes
  randSeed : Nat → Bytes
  randSalt : Bytes
  now : Str
  dig_len : ∀ c ∈ digestCodes, ∀ s, (dig c s).length = digRawLen c
  dig_lt : ∀ c s, ∀ b ∈ dig c s, b < 256
  pk_len : ∀ s, (pk s).length = 32
  pk_lt : ∀ s, ∀ b ∈ pk s, b < 256
  edSign_len : ∀ k m, (edSign k m).length = 64
  edSign_lt : ∀ k m, ∀ b ∈ edSign k m, b < 256
  stretch_len : ∀ salt n path o mem, (stretch salt n path o mem).length = n
  stretch_lt : ∀ salt n path o mem, ∀ b ∈ stretch salt n path o mem, b < 256
  randSeed_len : ∀ i, (randSeed i).length = 32
  randSeed_lt : ∀ i, ∀ b ∈ randSeed i, b < 256
  randSalt_len : randSalt.length = 16
  randSalt_lt : ∀ b ∈ randSalt, b < 256

/-! ## Serder (serder.rs) -/

/-- Serialized, versioned, self-addressing record. -/
structure Serder where
  raw : Str
  sad : Json
  proto : Protocols
  kind : Serials
  size : Nat
  version : Version
  code : Str
  deriving DecidableEq

/-- Serder::dumps: compact JSON for kind JSON; CBOR and MGPK unsupported. -/
def dumpsKind (sad : Json) (kind : Serials) : Except Err Str :=
  match kind with
  | .json => .ok (dumps sad)
  | _ => .error .serializationError

/-- Mirror of Serder::sizeify: read and parse the version string, serialize
to measure, rewrite the version string with the measured size, serialize
again. -/
def sizeify (sad : Json) (kind : Serials) :
    Except Err (Str × Protocols × Serials × Json × Version) :=
  match jgetStr sad ['v'] with
  | none => .error .invalidEvent
  | some vstr =>
    match deversify vstr with
    | .error e => .error e
    | .ok (proto, version, _kind0, _size0) =>
      match dumpsKind sad kind with
      | .error e => .error e
      | .ok raw1 =>
        let newv := versify proto (some version) (some kind) raw1.length
        match sad with
        | .obj fs =>
          let sad' := Json.obj (objInsert fs ['v'] (.str newv))
          match dumpsKind sad' kind with
          | .error e => .error e
          | .ok raw2 => .ok (raw2, proto, kind, sad', version)
        | _ => .error .invalidEvent
  
/-- Mirror of Serder::new. -/
def serderNew (sad : Json) (kind : Option Serials) (code : Option Str) :
    Except Err Serder :=
  let kind1 := kind.getD .json
  let code1 := code.getD ['E']
  match sizeify sad kind1 with
  | .error e => .error e
  | .ok (raw, proto, kind2, sad2, version) =>
    .ok ⟨raw, sad2, proto, kind2, raw.length, version, code1⟩

/-- Mirror of Serder::from_raw after serde_json parsing: the source parses
raw into a Value and proceeds; here the parsed value is passed alongside the
raw text (JSON parsing itself is not modelled, and any parsed value is
reachable).  Exactly as in the source, the declared size is taken from the
version string without comparing it to the length of raw, and the d field is
not recomputed or checked. -/
def serderFromRawParsed (raw : Str) (sad : Json) : Except Err Serder :=
  match jgetStr sad ['v'] with
  | none => .error .invalidEvent
  | some vstr =>
    match deversify vstr with
    | .error e => .error e
    | .ok (proto, version, kind, size) =>
      let code : Str :=
        match jgetStr sad ['d'] with
        | some d => if d = [] then ['E'] else d.take 1
        | none => ['E']
      .ok ⟨raw, sad, proto, kind, size, version, code⟩

/-- Serder::pre, the i field. -/
def Serder.pre (s : Serder) : Option Str := jgetStr s.sad ['i']

/-- Serder::said_field, the d field. -/
def Serder.saidField (s : Serder) : Option Str := jgetStr s.sad ['d']

/-- Serder::ilk, the t field. -/
def Serder.ilkOf (s : Serder) : Option Str := jgetStr s.sad ['t']

/-- Mirror of Serder::derive_said: clone, substitute a dummy string of hash
characters of the digest code's full qb64 size at d, sizeify, and hash the
serialization with BLAKE3 (the source hashes with blake3 regardless of the
code argument, which only fixes the dummy length). -/
def deriveSaid (env : Env) (sad : Json) (code : Str) (kind : Option Serials) :
    Except Err (Bytes × Json) :=
  let kind1 := kind.getD .json
  match sad with
  | .obj fs =>
    match sizage code with
    | .error e => .error e
    | .ok sz =>
      match sz.fs with
      | none => .error .invalidCode
      | some qb64Size =>
        let dummy := List.replicate qb64Size '#'
        let sad1 := Json.obj (objInsert fs ['d'] (.str dummy))
        match sizeify sad1 kind1 with
        | .error e => .error e
        | .ok (raw, _, _, sad2, _) => .ok (env.dig ['E'] (strBytes raw), sad2)
  | _ => .error .invalidEvent

/-! ## Diger (diger.rs) and Saider (saider.rs) -/

/-- Digest primitive. -/
structure Diger where
  matter : Matter
  deriving DecidableEq

/-- compute_digest of diger.rs with the hash functions abstract. -/
def computeDigest (env : Env) (code : Str) (ser : Bytes) : Except Err Bytes :=
  if code ∈ digestCodes then .ok (env.dig code ser)
  else .error .unsupportedAlgorithm

/-- Diger::new: compute the digest and wrap it as Matter. -/
def digerNew (env : Env) (code : Str) (ser : Bytes) : Except Err Diger :=
  match computeDigest env code ser with
  | .error e => .error e
  | .ok digest =>
    match matterFromRaw digest code with
    | .error e => .error e
    | .ok m => .ok ⟨m⟩

/-- Self-addressing identifier primitive. -/
structure Saider where
  matter : Matter
  deriving DecidableEq

/-- Mirror of saidify_with_label in saider.rs: require an object containing
the label, set the label to the EMPTY string, serialize, hash with
BLAKE3-256, and write the digest qb64 back into the label.  (Note: unlike
Serder::derive_said, no hash-character dummy is substituted and the version
string is not rewritten.) -/
def saidifyWithLabel (env : Env) (sad : Json) (label : Str) :
    Except Err (Saider × Json) :=
  match sad with
  | .obj fs =>
    if fs.any (fun p => p.1 = label) then
      let fs1 := objInsert fs label (.str [])
      let jsonBytes := strBytes (dumps (Json.obj fs1))
      match digerNew env ['E'] jsonBytes with
      | .error e => .error e
      | .ok diger =>
        match matterFromRaw diger.matter.raw diger.matter.code with
        | .error e => .error e
        | .ok m => .ok (⟨m⟩, Json.obj (objInsert fs1 label (.str m.qb64)))
    else .error .invalidEvent
  | _ => .error .invalidEvent

/-- Saider::saidify: saidify_with_label at the default label d. -/
def saidify (env : Env) (sad : Json) : Except Err (Saider × Json) :=
  saidifyWithLabel env sad ['d']

/-! ## Verfer (verfer.rs) and Signer (signer.rs) -/

/-- Ed25519 public key primitive. -/
structure Verfer where
  matter : Matter
  deriving DecidableEq

/-- Valid verifier codes: transferable D or non-transferable B. -/
def verferValidCode (code : Str) : Bool := code = ['D'] ∨ code = ['B']

/-- Mirror of Verfer::from_raw. -/
def verferFromRaw (raw : Bytes) (code : Str) : Except Err Verfer :=
  if verferValidCode code then
    match matterFromRaw raw code with
    | .error e => .error e
    | .ok m => .ok ⟨m⟩
  else .error .invalidCode

/-- Mirror of Verfer::from_qb64. -/
def verferFromQb64 (q : Str) : Except Err Verfer :=
  match matterFromQb64 q with
  | .error e => .error e
  | .ok m => if verferValidCode m.code then .ok ⟨m⟩ else .error .invalidCode

/-- Verfer::transferable. -/
def Verfer.transferable (v : Verfer) : Bool := v.matter.code = ['D']

/-- Verfer::qb64. -/
def Verfer.qb64 (v : Verfer) : Str := v.matter.qb64

/-- Ed25519 signing key primitive: the seed Matter plus the derived public
key. -/
structure Signer where
  matter : Matter
  verfer : Verfer
  deriving DecidableEq

/-- Mirror of Signer::from_seed: requires the Ed25519 seed code and a 32-byte
seed; the public key derivation is the abstract env.pk. -/
def signerFromSeed (env : Env) (seed : Bytes) (code : Str) (transferable : Bool) :
    Except Err Signer :=
  if code ≠ ['A'] then .error .unsupportedAlgorithm
  else if seed.length ≠ 32 then .error (.invalidSize 32 seed.length)
  else
    match matterFromRaw seed code with
    | .error e => .error e
    | .ok m =>
      let vcode := if transferable then ['D'] else ['B']
      match verferFromRaw (env.pk seed) vcode with
      | .error e => .error e
      | .ok v => .ok ⟨m, v⟩

/-- Mirror of Signer::new_random; the OS RNG is modelled as the abstract
entropy stream env.randSeed consumed at position i. -/
def signerNewRandom (env : Env) (i : Nat) (code : Str) (transferable : Bool) :
    Except Err Signer :=
  if code ≠ ['A'] then .error .unsupportedAlgorithm
  else signerFromSeed env (env.randSeed i) code transferable

/-- Mirror of Signer::from_qb64. -/
def signerFromQb64 (env : Env) (q : Str) (transferable : Bool) : Except Err Signer :=
  match matterFromQb64 q with
  | .error e => .error e
  | .ok m =>
    if m.code ≠ ['A'] then .error .invalidCode
    else signerFromSeed env m.raw m.code transferable

/-- Signer::sign: Ed25519 detached signature over ser. -/
def Signer.sign (env : Env) (s : Signer) (ser : Bytes) : Bytes :=
  env.edSign s.matter.raw ser

/-- Signer::transferable. -/
def Signer.transferable (s : Signer) : Bool := s.verfer.matter.code = ['D']

/-! ## Salter (salter.rs) -/

/-- Argon2 security tiers. -/
inductive Tier where
  | low
  | med
  | high
  deriving DecidableEq, Repr

/-- Tier parameters (opslimit, memlimit KiB). -/
def Tier.params : Tier → Nat × Nat
  | .low => (2, 65536)
  | .med => (3, 262144)
  | .high => (4, 1048576)

/-- Tier name. -/
def Tier.asStr : Tier → Str
  | .low => ['l', 'o', 'w']
  | .med => ['m', 'e', 'd']
  | .high => ['h', 'i', 'g', 'h']

/-- Tier::from_str. -/
def tierFromStr (s : Str) : Except Err Tier :=
  if s = ['l', 'o', 'w'] then .ok .low
  else if s = ['m', 'e', 'd'] then .ok .med
  else if s = ['h', 'i', 'g', 'h'] then .ok .high
  else .error .invalidArgument

/-- Salt primitive: 16 raw bytes under code 0A plus a tier. -/
structure Salter where
  matter : Matter
  tier : Tier
  deriving DecidableEq

/-- Mirror of Salter::from_raw. -/
def salterFromRaw (raw : Bytes) (tier : Tier) : Except Err Salter :=
  match matterFromRaw raw ['0', 'A'] with
  | .error e => .error e
  | .ok m => .ok ⟨m, tier⟩

/-- Mirror of Salter::from_qb64 (note: the source does not check that the
decoded code is the salt code). -/
def salterFromQb64 (q : Str) (tier : Tier) : Except Err Salter :=
  match matterFromQb64 q with
  | .error e => .error e
  | .ok m => .ok ⟨m, tier⟩

/-- Mirror of Salter::new with the RNG abstracted. -/
def salterNew (env : Env) (tier : Tier) : Except Err Salter :=
  salterFromRaw env.randSalt tier

/-- Salter::qb64. -/
def Salter.qb64 (s : Salter) : Str := s.matter.qb64

/-- Mirror of Salter::stretch: Argon2id with tier (or temp) parameters,
abstracted as env.stretch.  (Params::new cannot fail for the table values
and is modelled as total.) -/
def Salter.stretch (s : Salter) (env : Env) (size : Nat) (path : Str)
    (tier : Option Tier) (temp : Bool) : Bytes :=
  let t := tier.getD s.tier
  let p := if temp then (1, 8) else t.params
  env.stretch s.matter.raw size path p.1 p.2

/-- Mirror of Salter::signer: stretch to the code's raw size and build a
Signer on that seed. -/
def salterSigner (s : Salter) (env : Env) (code : Str) (transferable : Bool)
    (path : Str) (tier : Option Tier) (temp : Bool) : Except Err Signer :=
  match rawSize code with
  | .error e => .error e
  | .ok n => signerFromSeed env (s.stretch env n path tier temp) code transferable

/-! ## Prefixer (prefixer.rs) -/

/-- The three derivation methods. -/
inductive DerivationCode where
  | ed25519N
  | ed25519
  | blake3256
  deriving DecidableEq, Repr

/-- DerivationCode::from_code. -/
def derivationFromCode (code : Str) : Except Err DerivationCode :=
  if code = ['B'] then .ok .ed25519N
  else if code = ['D'] then .ok .ed25519
  else if code = ['E'] then .ok .blake3256
  else .error .invalidCode

/-- Identifier prefix primitive. -/
structure Prefixer where
  matter : Matter
  derivation : DerivationCode
  deriving DecidableEq

/-- Mirror of Prefixer::new. -/
def prefixerNew (m : Matter) : Except Err Prefixer :=
  match derivationFromCode m.code with
  | .error e => .error e
  | .ok d => .ok ⟨m, d⟩

/-- Mirror of Prefixer::from_qb64. -/
def prefixerFromQb64 (q : Str) : Except Err Prefixer :=
  match matterFromQb64 q with
  | .error e => .error e
  | .ok m => prefixerNew m

/-- Incepting ilks accepted for prefix derivation and verification. -/
def isInceptive (ilk : Str) : Bool :=
  ilk = ['i', 'c', 'p'] ∨ ilk = ['d', 'i', 'p'] ∨ ilk = ['v', 'c', 'p']

/-- Mirror of Prefixer::derive_ed25519n. -/
def deriveEd25519N (sad : Json) : Except Err (Bytes × Str) :=
  match jgetArr sad ['k'] with
  | none => .error .invalidFormat
  | some keys =>
    if keys.length ≠ 1 then .error .invalidFormat
    else
      match keys.head? with
      | some (.str keyQb64) =>
        match verferFromQb64 keyQb64 with
        | .error e => .error e
        | .ok verfer =>
          if verfer.matter.code ≠ ['B'] then .error .invalidCode
          else if (jgetArr sad ['n']).elim false (fun l => !l.isEmpty) then
            .error .invalidFormat
          else if (jgetArr sad ['b']).elim false (fun l => !l.isEmpty) then
            .error .invalidFormat
          else if (jgetArr sad ['a']).elim false (fun l => !l.isEmpty) then
            .error .invalidFormat
          else .ok (verfer.matter.raw, ['B'])
      | _ => .error .invalidFormat

/-- Mirror of Prefixer::derive_ed25519. -/
def deriveEd25519 (sad : Json) : Except Err (Bytes × Str) :=
  match jgetArr sad ['k'] with
  | none => .error .invalidFormat
  | some keys =>
    if keys.length ≠ 1 then .error .invalidFormat
    else
      match keys.head? with
      | some (.str keyQb64) =>
        match verferFromQb64 keyQb64 with
        | .error e => .error e
        | .ok verfer =>
          if verfer.matter.code ≠ ['D'] then .error .invalidCode
          else .ok (verfer.matter.raw, ['D'])
      | _ => .error .invalidFormat

/-- Mirror of Prefixer::derive_blake3_256: substitute the 44-hash-character
dummy into both i and d, rebuild a Serder (which re-sizeifies), and hash its
serialization with BLAKE3. -/
def deriveBlake3_256 (env : Env) (serder : Serder) : Except Err (Bytes × Str) :=
  match serder.ilkOf with
  | none => .error .invalidFormat
  | some ilk =>
    if ¬ isInceptive ilk then .error .invalidFormat
    else
      match serder.sad with
      | .obj fs =>
        let dummy : Str := List.replicate 44 '#'
        let fs1 := objInsert (objInsert fs ['i'] (.str dummy)) ['d'] (.str dummy)
        match serderNew (Json.obj fs1) none none with
        | .error e => .error e
        | .ok temp => .ok (env.dig ['E'] (strBytes temp.raw), ['E'])
      | _ => .error .invalidEvent

/-- Mirror of Prefixer::from_event.  Note two source quirks kept here: when
no code is passed, the WHOLE i field value is used as the derivation code
string; and when the event already carries a non-empty i, that value is
simply re-parsed as the prefix instead of re-deriving. -/
def prefixerFromEvent (env : Env) (serder : Serder) (code : Option Str) :
    Except Err Prefixer :=
  match serder.ilkOf with
  | none => .error .invalidFormat
  | some ilk =>
    if ¬ isInceptive ilk then .error .invalidFormat
    else
      let codeRes : Except Err Str :=
        match code with
        | some c => .ok c
        | none =>
          match jgetStr serder.sad ['i'] with
          | some i => .ok i
          | none => .error .invalidFormat
      match codeRes with
      | .error e => .error e
      | .ok codeStr =>
        match derivationFromCode codeStr with
        | .error e => .error e
        | .ok derivation =>
          let prefixFromEvent : Option Str :=
            match jgetStr serder.sad ['i'] with
            | some s => if s = [] then none else some s
            | none => none
          match prefixFromEvent with
          | some pq =>
            match matterFromQb64 pq with
            | .error e => .error e
            | .ok m => .ok ⟨m, derivation⟩
          | none =>
            let derived : Except Err (Bytes × Str) :=
              match derivation with
              | .ed25519N => deriveEd25519N serder.sad
              | .ed25519 => deriveEd25519 serder.sad
              | .blake3256 => deriveBlake3_256 env serder
            match derived with
            | .error e => .error e
            | .ok (raw, dcode) =>
              match matterFromRaw raw dcode with
              | .error e => .error e
              | .ok m => .ok ⟨m, derivation⟩

/-- Mirror of Prefixer::verify_ed25519n. -/
def verifyEd25519N (p : Prefixer) (serder : Serder) (prefixed : Bool) :
    Except Err Bool :=
  let pre := p.matter.qb64
  match jgetArr serder.sad ['k'] with
  | none => .ok false
  | some keys =>
    if keys.length ≠ 1 then .ok false
    else
      match keys.head? with
      | some (.str key) =>
        if key ≠ pre then .ok false
        else
          let iOk : Bool :=
            if prefixed then
              match jgetStr serder.sad ['i'] with
              | some i => i = pre
              | none => false
            else true
          if ¬ iOk then .ok false
          else
            match jgetArr serder.sad ['n'] with
            | some n => .ok n.isEmpty
            | none => .ok true
      | _ => .ok false

/-- Mirror of Prefixer::verify_ed25519. -/
def verifyEd25519 (p : Prefixer) (serder : Serder) (prefixed : Bool) :
    Except Err Bool :=
  let pre := p.matter.qb64
  match jgetArr serder.sad ['k'] with
  | none => .ok false
  | some keys =>
    if keys.length ≠ 1 then .ok false
    else
      match keys.head? with
      | some (.str key) =>
        if key ≠ pre then .ok false
        else
          if prefixed then
            match jgetStr serder.sad ['i'] with
            | some i => .ok (i = pre)
            | none => .ok false
          else .ok true
      | _ => .ok false

/-- Mirror of Prefixer::verify_blake3_256: only compares the d (and, when
prefixed, the i) field string with the stored prefix; the digest is NOT
recomputed. -/
def verifyBlake3_256 (p : Prefixer) (serder : Serder) (prefixed : Bool) :
    Except Err Bool :=
  match serder.saidField with
  | none => .ok false
  | some said =>
    if said ≠ p.matter.qb64 then .ok false
    else
      if prefixed then
        match serder.pre with
        | none => .ok false
        | some i => .ok (i = p.matter.qb64)
      else .ok true

/-- Mirror of Prefixer::verify: dispatch on the derivation, mapping inner
errors to Ok(false). -/
def prefixerVerify (p : Prefixer) (serder : Serder) (prefixed : Bool) :
    Except Err Bool :=
  match serder.ilkOf with
  | none => .error .invalidFormat
  | some ilk =>
    if ¬ isInceptive ilk then .error .invalidFormat
    else
      let inner : Except Err Bool :=
        match p.derivation with
        | .ed25519N => verifyEd25519N p serder prefixed
        | .ed25519 => verifyEd25519 p serder prefixed
        | .blake3256 => verifyBlake3_256 p serder prefixed
      match inner with
      | .ok b => .ok b
      | .error _ => .ok false

/-! ## Eventing (eventing.rs) -/

/-- The inception ilk. -/
def ILK_ICP : Str := ['i', 'c', 'p']

/-- The delegated inception ilk. -/
def ILK_DIP : Str := ['d', 'i', 'p']

/-- Lowercase hex rendering, the Rust x format. -/
def natHexLower (n : Nat) : Str := hexStr n

/-- Ample witness threshold: floor(n/2) + 1 for non-empty witness sets. -/
def ample (n : Nat) : Nat := if n = 0 then 0 else n / 2 + 1

/-- The digestive-code test repeated in eventing.rs (BLAKE3-256, SHA3-256,
SHA2-256, BLAKE2B-256). -/
def isDigestiveCode (c : Str) : Bool :=
  c = ['E'] ∨ c = ['H'] ∨ c = ['I'] ∨ c = ['F']

/-- Mirror of incept in eventing.rs.  The version and kind arguments of the
source are accepted and ignored there (the version string is always built
from KERI 1.0 JSON); they are kept here as ignored parameters. -/
def incept (env : Env) (keys : List Str) (isith : Option Str) (ndigs : List Str)
    (nsith : Option Str) (toad : Option Nat) (wits : Option (List Str))
    (cnfg : Option (List Str)) (data : Option (List Json))
    (_version : Option Str) (_kind : Option Str) (code : Option Str)
    (intive : Bool) (delpre : Option Str) : Except Err Serder :=
  let vs := versify .keri (some VRSN_1_0) (some .json) 0
  let ilk := if delpre.isSome then ILK_DIP else ILK_ICP
  let isithRes : Except Err Nat :=
    match isith with
    | some s =>
      match parseHexNat s with
      | some v => .ok v
      | none => .error .invalidArgument
    | none => .ok (max 1 ((keys.length + 1) / 2))
  match isithRes with
  | .error e => .error e
  | .ok isithVal =>
  if isithVal < 1 then .error .invalidArgument
  else if isithVal > keys.length then .error .invalidArgument
  else
    let nsithRes : Except Err Nat :=
      match nsith with
      | some s =>
        match parseHexNat s with
        | some v => .ok v
        | none => .error .invalidArgument
      | none => .ok (max 0 ((ndigs.length + 1) / 2))
    match nsithRes with
    | .error e => .error e
    | .ok nsithVal =>
    if nsithVal > ndigs.length then .error .invalidArgument
    else
      let wits1 := wits.getD []
      if ¬ wits1.Nodup then .error .invalidArgument
      else
        let toadVal := toad.getD (if wits1.isEmpty then 0 else ample wits1.length)
        if ¬ wits1.isEmpty ∧ (toadVal < 1 ∨ toadVal > wits1.length) then
          .error .invalidArgument
        else if wits1.isEmpty ∧ toadVal ≠ 0 then .error .invalidArgument
        else
          let cnfg1 := cnfg.getD []
          let data1 := data.getD []
          let sad0 : List (Str × Json) := [
            (['v'], .str vs),
            (['t'], .str ilk),
            (['d'], .str []),
            (['i'], .str []),
            (['s'], .str ['0']),
            (['k', 't'], .str (if intive then natDec isithVal else natHexLower isithVal)),
            (['k'], .arr (keys.map .str)),
            (['n', 't'], .str (if intive then natDec nsithVal else natHexLower nsithVal)),
            (['n'], .arr (ndigs.map .str)),
            (['b', 't'], .str (if intive then natDec toadVal else natHexLower toadVal)),
            (['b'], .arr (wits1.map .str)),
            (['c'], .arr (cnfg1.map .str)),
            (['a'], .arr data1)]
          let sad1 :=
            match delpre with
            | some dp => objInsert sad0 ['d', 'i'] (.str dp)
            | none => sad0
          let prefixerRes : Except Err Prefixer :=
            match delpre, code, keys with
            | none, none, [k0] =>
              match prefixerFromQb64 k0 with
              | .error e => .error e
              | .ok pfr =>
                if isDigestiveCode pfr.matter.code then .error .invalidArgument
                else .ok pfr
            | _, _, _ =>
              let deriveCode := code.getD ['E']
              match serderNew (Json.obj sad1) none none with
              | .error e => .error e
              | .ok tempSerder =>
                match prefixerFromEvent env tempSerder (some deriveCode) with
                | .error e => .error e
                | .ok pfr =>
                  if delpre.isSome ∧ ¬ isDigestiveCode pfr.matter.code then
                    .error .invalidArgument
                  else .ok pfr
          match prefixerRes with
          | .error e => .error e
          | .ok pfr =>
            let sad2 := objInsert sad1 ['i'] (.str pfr.matter.qb64)
            if isDigestiveCode pfr.matter.code then
              serderNew (Json.obj (objInsert sad2 ['d'] (.str pfr.matter.qb64))) none none
            else
              match saidify env (Json.obj sad2) with
              | .error e => .error e
              | .ok (saider, sadS) =>
                match sadS with
                | .obj fsS =>
                  serderNew (Json.obj (objInsert fsS ['d'] (.str saider.matter.qb64)))
                    none none
                | _ => .error .invalidEvent

/-! ## Indexer (indexer.rs), Siger (siger.rs), Cigar (cigar.rs) -/

/-- Size record of an indexer code. -/
structure IndexerSizage where
  hs : Nat
  ss : Nat
  fs : Nat
  deriving DecidableEq, Repr

/-- The INDEXER_SIZES table of indexer.rs. -/
def INDEXER_SIZES : List (Str × IndexerSizage) := [
  (['A'], ⟨1, 1, 88⟩),
  (['B'], ⟨1, 1, 88⟩),
  (['C'], ⟨1, 1, 88⟩),
  (['D'], ⟨1, 1, 88⟩),
  (['E'], ⟨1, 1, 88⟩),
  (['F'], ⟨1, 1, 88⟩),
  (['0', 'A'], ⟨2, 2, 156⟩),
  (['0', 'B'], ⟨2, 2, 156⟩),
  (['2', 'A'], ⟨2, 4, 92⟩),
  (['2', 'B'], ⟨2, 4, 92⟩),
  (['2', 'C'], ⟨2, 4, 92⟩),
  (['2', 'D'], ⟨2, 4, 92⟩),
  (['2', 'E'], ⟨2, 4, 92⟩),
  (['2', 'F'], ⟨2, 4, 92⟩),
  (['3', 'A'], ⟨2, 6, 160⟩),
  (['3', 'B'], ⟨2, 6, 160⟩)]

/-- indexer_sizage lookup. -/
def indexerSizage (code : Str) : Option IndexerSizage := alookup code INDEXER_SIZES

/-- IndexerCodex::is_valid. -/
def indexerValidCode (code : Str) : Bool :=
  code = ['A'] ∨ code = ['B'] ∨ code = ['C'] ∨ code = ['D'] ∨ code = ['E'] ∨
  code = ['F'] ∨ code = ['0', 'A'] ∨ code = ['0', 'B'] ∨ code = ['2', 'A'] ∨
  code = ['2', 'B'] ∨ code = ['2', 'C'] ∨ code = ['2', 'D'] ∨ code = ['2', 'E'] ∨
  code = ['2', 'F'] ∨ code = ['3', 'A'] ∨ code = ['3', 'B']

/-- IndexerCodex::is_big. -/
def indexerIsBig (code : Str) : Bool :=
  code = ['2', 'A'] ∨ code = ['2', 'B'] ∨ code = ['2', 'C'] ∨ code = ['2', 'D'] ∨
  code = ['2', 'E'] ∨ code = ['2', 'F'] ∨ code = ['3', 'A'] ∨ code = ['3', 'B']

/-- Indexed signature primitive. -/
structure Indexer where
  raw : Bytes
  code : Str
  index : Nat
  ondex : Nat
  deriving DecidableEq, Repr

/-- Mirror of Indexer::new: validate the code, bound the index (16383 for big
codes, 63 otherwise), default ondex to index, bound ondex the same way.  The
raw signature size is deliberately not validated, as in the source. -/
def indexerNew (raw : Bytes) (code : Str) (index : Nat) (ondex : Option Nat) :
    Except Err Indexer :=
  if ¬ indexerValidCode code then .error .invalidCode
  else
    match indexerSizage code with
    | none => .error .invalidCode
    | some _sz =>
      let idxOk : Except Err Unit :=
        if indexerIsBig code then
          if index > 16383 then .error .invalidIndex else .ok ()
        else if index > 63 then .error .invalidIndex
        else .ok ()
      match idxOk with
      | .error e => .error e
      | .ok () =>
        let ondex1 := ondex.getD index
        let odxOk : Except Err Unit :=
          if indexerIsBig code then
            if ondex1 > 16383 then .error .invalidIndex else .ok ()
          else if ondex1 > 63 then .error .invalidIndex
          else .ok ()
        match odxOk with
        | .error e => .error e
        | .ok () => .ok ⟨raw, code, index, ondex1⟩

/-- int_to_b64 of indexer.rs: fixed-width base64 digits, most significant
first. -/
def intToB64 (n : Nat) (len : Nat) : Str :=
  (List.range len).map (fun i => b64Char (n / 64 ^ (len - 1 - i) % 64))

/-- Indexer::qb64: code, one or two soft index fields, then the raw
signature in base64. -/
def Indexer.qb64 (x : Indexer) : Str :=
  if indexerIsBig x.code then
    x.code ++ intToB64 x.index 2 ++ intToB64 x.ondex 2 ++ b64Encode x.raw
  else x.code ++ intToB64 x.index 1 ++ b64Encode x.raw

/-- Indexed signature with optional verifier (siger.rs). -/
structure Siger where
  indexer : Indexer
  verfer : Option Verfer
  deriving DecidableEq

/-- Mirror of Siger::new. -/
def sigerNew (raw : Bytes) (code : Str) (index : Nat) (ondex : Option Nat)
    (verfer : Option Verfer) : Except Err Siger :=
  if ¬ indexerValidCode code then .error .invalidCode
  else
    match indexerNew raw code index ondex with
    | .error e => .error e
    | .ok ix => .ok ⟨ix, verfer⟩

/-- Non-indexed signature with optional verifier (cigar.rs). -/
structure Cigar where
  matter : Matter
  verfer : Option Verfer
  deriving DecidableEq

/-- Mirror of Cigar::new: wraps the raw signature as Matter under the given
code, with the code's size contract enforced by from_raw. -/
def cigarNew (raw : Bytes) (code : Str) (verfer : Option Verfer) :
    Except Err Cigar :=
  match matterFromRaw raw code with
  | .error e => .error e
  | .ok m => .ok ⟨m, verfer⟩

/-! ## Key store (manager.rs) -/

/-- Key generation algorithms (the extern variant of the source is named
externA here because its Rust name collides with a Lean keyword). -/
inductive Algos where
  | randy
  | salty
  | group
  | externA
  deriving DecidableEq, Repr

/-- Algos::as_str. -/
def Algos.asStr : Algos → Str
  | .randy => ['r', 'a', 'n', 'd', 'y']
  | .salty => ['s', 'a', 'l', 't', 'y']
  | .group => ['g', 'r', 'o', 'u', 'p']
  | .externA => ['e', 'x', 't', 'e', 'r', 'n']

/-- Algos::from_str. -/
def algosFromStr (s : Str) : Except Err Algos :=
  if s = Algos.randy.asStr then .ok .randy
  else if s = Algos.salty.asStr then .ok .salty
  else if s = Algos.group.asStr then .ok .group
  else if s = Algos.externA.asStr then .ok .externA
  else .error .invalidAlgorithm

/-- Path record for deterministic re-derivation of a key. -/
structure PubPath where
  path : Str
  code : Str
  tier : Tier
  temp : Bool
  deriving DecidableEq

/-- Prefix parameters. -/
structure PrePrm where
  pidx : Nat
  algo : Algos
  salt : Str
  stem : Str
  tier : Tier
  deriving DecidableEq

/-- One lot of public keys. -/
structure PubLot where
  pubs : List Str
  ridx : Nat
  kidx : Nat
  dt : Str
  deriving DecidableEq

/-- The old/new/nxt ratchet of a prefix. -/
structure PreSit where
  old : PubLot
  new : PubLot
  nxt : PubLot
  deriving DecidableEq

/-- Public key set at a rotation index. -/
structure PubSet where
  pubs : List Str
  deriving DecidableEq

/-- Unconditional upsert in an association list (HashMap::insert), keeping
the position of an existing key. -/
def pinAssoc {β : Type} (l : List (Str × β)) (k : Str) (v : β) : List (Str × β) :=
  if l.any (fun p => p.1 = k) then l.map (fun p => if p.1 = k then (k, v) else p)
  else l ++ [(k, v)]

/-- Insert-if-absent in an association list; none when the key exists. -/
def putAssoc {β : Type} (l : List (Str × β)) (k : Str) (v : β) :
    Option (List (Str × β)) :=
  if l.any (fun p => p.1 = k) then none else some (l ++ [(k, v)])

/-- In-memory key store, the Keeper of manager.rs: six string-keyed buckets. -/
structure Keeper where
  gbls : List (Str × Str)
  pris : List (Str × Bytes)
  pths : List (Str × PubPath)
  pres : List (Str × Bytes)
  prms : List (Str × PrePrm)
  sits : List (Str × PreSit)
  pubs : List (Str × PubSet)
  deriving DecidableEq

/-- An empty key store. -/
def Keeper.empty : Keeper := ⟨[], [], [], [], [], [], []⟩

/-- get_gbls. -/
def Keeper.getGbls (ks : Keeper) (k : Str) : Option Str := alookup k ks.gbls

/-- pin_gbls. -/
def Keeper.pinGbls (ks : Keeper) (k : Str) (v : Str) : Keeper :=
  { ks with gbls := pinAssoc ks.gbls k v }

/-- get_prms. -/
def Keeper.getPrms (ks : Keeper) (pre : Str) : Option PrePrm := alookup pre ks.prms

/-- put_prms, returning the store and the success flag. -/
def Keeper.putPrms (ks : Keeper) (pre : Str) (v : PrePrm) : Keeper × Bool :=
  match putAssoc ks.prms pre v with
  | some l => ({ ks with prms := l }, true)
  | none => (ks, false)

/-- get_pths. -/
def Keeper.getPths (ks : Keeper) (pub : Str) : Option PubPath := alookup pub ks.pths

/-- put_pths. -/
def Keeper.putPths (ks : Keeper) (pub : Str) (v : PubPath) : Keeper × Bool :=
  match putAssoc ks.pths pub v with
  | some l => ({ ks with pths := l }, true)
  | none => (ks, false)

/-- get_pres. -/
def Keeper.getPres (ks : Keeper) (pre : Str) : Option Bytes := alookup pre ks.pres

/-- put_pres. -/
def Keeper.putPres (ks : Keeper) (pre : Str) (v : Bytes) : Keeper × Bool :=
  match putAssoc ks.pres pre v with
  | some l => ({ ks with pres := l }, true)
  | none => (ks, false)

/-- get_sits. -/
def Keeper.getSits (ks : Keeper) (pre : Str) : Option PreSit := alookup pre ks.sits

/-- put_sits. -/
def Keeper.putSits (ks : Keeper) (pre : Str) (v : PreSit) : Keeper × Bool :=
  match putAssoc ks.sits pre v with
  | some l => ({ ks with sits := l }, true)
  | none => (ks, false)

/-- pin_sits. -/
def Keeper.pinSits (ks : Keeper) (pre : Str) (v : PreSit) : Keeper :=
  { ks with sits := pinAssoc ks.sits pre v }

/-- get_pubs. -/
def Keeper.getPubs (ks : Keeper) (k : Str) : Option PubSet := alookup k ks.pubs

/-- put_pubs. -/
def Keeper.putPubs (ks : Keeper) (k : Str) (v : PubSet) : Keeper × Bool :=
  match putAssoc ks.pubs k v with
  | some l => ({ ks with pubs := l }, true)
  | none => (ks, false)

/-- rem_pris. -/
def Keeper.remPris (ks : Keeper) (pub : Str) : Keeper :=
  { ks with pris := ks.pris.filter (fun p => p.1 ≠ pub) }

/-- ri_key: prefix, a dot, and the rotation index as 32-digit hex. -/
def riKey (pre : Str) (ridx : Nat) : Str :=
  let s := natHexLower ridx
  pre ++ '.' :: (List.replicate (32 - s.length) '0' ++ s)

/-! ## Encrypter / Decrypter (encrypter.rs, decrypter.rs)

The X25519 sealed box itself is the abstract pair env.sealBox / env.unsealBox;
the wrappers below mirror the plaintext parsing, cipher-code selection and
result dispatch of the source. -/

/-- Result of Decrypter::decrypt. -/
inductive DecryptedMatter where
  | signerM (s : Signer)
  | salterM (s : Salter)
  deriving DecidableEq

/-- Mirror of Encrypter::encrypt on serialized qb64 bytes: parse them as a
Matter, choose the cipher code by the plaintext code (salt or seed), seal the
qb64 bytes and wrap the ciphertext as a cipher Matter. -/
def encrypterEncrypt (env : Env) (ser : Bytes) : Except Err Matter :=
  match matterFromQb64 (bytesChars ser) with
  | .error e => .error e
  | .ok m =>
    let ccode : Str := if m.code = ['0', 'A'] then ['1', 'A', 'A', 'H'] else ['P']
    matterFromRaw (env.sealBox (strBytes m.qb64)) ccode

/-- Mirror of Decrypter::decrypt on serialized cipher qb64 bytes: parse the
cipher, unseal, and return a Salter or a Signer according to the cipher
code. -/
def decrypterDecrypt (env : Env) (ser : Bytes) (transferable : Bool) :
    Except Err DecryptedMatter :=
  match matterFromQb64 (bytesChars ser) with
  | .error e => .error e
  | .ok cm =>
    if cm.code ≠ ['1', 'A', 'A', 'H'] ∧ cm.code ≠ ['P'] then .error .invalidCode
    else
      match env.unsealBox cm.raw with
      | none => .error .decryptionError
      | some pt =>
        if cm.code = ['1', 'A', 'A', 'H'] then
          match salterFromQb64 (bytesChars pt) .low with
          | .error e => .error e
          | .ok s => .ok (.salterM s)
        else
          match signerFromQb64 env (bytesChars pt) transferable with
          | .error e => .error e
          | .ok s => .ok (.signerM s)

/-- Keeper::get_pris: look up the stored cipher, decrypt it, and accept only
a Signer result. -/
def Keeper.getPris (ks : Keeper) (env : Env) (pub : Str) : Option Signer :=
  match alookup pub ks.pris with
  | none => none
  | some cipherBytes =>
    match verferFromQb64 pub with
    | .error _ => none
    | .ok verfer =>
      match decrypterDecrypt env cipherBytes verfer.transferable with
      | .ok (.signerM s) => some s
      | _ => none

/-- Keeper::put_pris: insert-if-absent of the encrypted seed; a failed
encryption reports false without storing, as in the source. -/
def Keeper.putPris (ks : Keeper) (env : Env) (pub : Str) (signer : Signer) :
    Keeper × Bool :=
  if ks.pris.any (fun p => p.1 = pub) then (ks, false)
  else
    match encrypterEncrypt env (strBytes signer.matter.qb64) with
    | .ok cm => ({ ks with pris := ks.pris ++ [(pub, strBytes cm.qb64)] }, true)
    | .error _ => (ks, false)

/-! ## Creators (manager.rs) -/

/-- Set of signers with optional derivation paths. -/
structure Keys where
  signers : List Signer
  paths : Option (List Str)
  deriving DecidableEq

/-- Salty (deterministic) creator state. -/
structure SaltyCreator where
  salter : Salter
  stem : Str
  deriving DecidableEq

/-- Mirror of SaltyCreator::new. -/
def saltyCreatorNew (env : Env) (salt : Option Str) (tier : Option Tier)
    (stem : Option Str) : Except Err SaltyCreator :=
  let t := tier.getD .low
  match salt with
  | some s =>
    match salterFromQb64 s t with
    | .error e => .error e
    | .ok sal => .ok ⟨sal, stem.getD []⟩
  | none =>
    match salterNew env t with
    | .error e => .error e
    | .ok sal => .ok ⟨sal, stem.getD []⟩

/-- The two implemented Creator strategies. -/
inductive Creator where
  | randy
  | salty (sc : SaltyCreator)
  deriving DecidableEq

/-- Mirror of Creatory::make; Group and Extern are unimplemented. -/
def creatoryMake (env : Env) (algo : Algos) (salt : Option Str)
    (tier : Option Tier) (stem : Option Str) : Except Err Creator :=
  match algo with
  | .randy => .ok .randy
  | .salty =>
    match saltyCreatorNew env salt tier stem with
    | .error e => .error e
    | .ok sc => .ok (.salty sc)
  | _ => .error .invalidAlgorithm

/-- Sequential Signer::new_random calls of RandyCreator::create, consuming
the modelled entropy stream from a starting position. -/
def randySigners (env : Env) (transferable : Bool) :
    List Str → Nat → Except Err (List Signer)
  | [], _ => .ok []
  | c :: rest, i =>
    match signerNewRandom env i c transferable with
    | .error e => .error e
    | .ok s =>
      match randySigners env transferable rest (i + 1) with
      | .error e => .error e
      | .ok ss => .ok (s :: ss)

/-- The salty derivation path: stem then hex ridx then hex key index, or hex
pidx when the stem is empty. -/
def saltyPath (stem : Str) (pidx ridx k : Nat) : Str :=
  if stem = [] then natHexLower pidx
  else stem ++ natHexLower ridx ++ natHexLower k

/-- The per-code loop of SaltyCreator::create, pairing each signer with its
derivation path. -/
def saltySigners (env : Env) (sc : SaltyCreator) (transferable : Bool)
    (pidx ridx : Nat) (temp : Bool) :
    List Str → Nat → Except Err (List (Signer × Str))
  | [], _ => .ok []
  | c :: rest, k =>
    let path := saltyPath sc.stem pidx ridx k
    match salterSigner sc.salter env c transferable path (some sc.salter.tier) temp with
    | .error e => .error e
    | .ok s =>
      match saltySigners env sc transferable pidx ridx temp rest (k + 1) with
      | .error e => .error e
      | .ok ss => .ok ((s, path) :: ss)

/-- Mirror of Creator::create for both strategies.  The source's Randy
strategy draws fresh OS entropy on every call; the abstract stream is indexed
here by the cumulative key index kidx, which strictly increases across the
creates made for one prefix, so successive calls draw distinct entropy just
as the OS RNG does. -/
def creatorCreate (env : Env) (c : Creator)
    (codes : Option (List Str)) (count : Nat) (code : Str) (transferable : Bool)
    (pidx ridx kidx : Nat) (temp : Bool) : Except Err Keys :=
  let codes1 := codes.getD (List.replicate count code)
  match c with
  | .randy =>
    match randySigners env transferable codes1 kidx with
    | .error e => .error e
    | .ok ss => .ok ⟨ss, none⟩
  | .salty sc =>
    match saltySigners env sc transferable pidx ridx temp codes1 kidx with
    | .error e => .error e
    | .ok sps => .ok ⟨sps.map Prod.fst, some (sps.map Prod.snd)⟩

/-- Creator::salt. -/
def Creator.saltQb64 : Creator → Str
  | .randy => []
  | .salty sc => sc.salter.qb64

/-- Creator::stem. -/
def Creator.stemOf : Creator → Str
  | .randy => []
  | .salty sc => sc.stem

/-- Creator::tier. -/
def Creator.tierOf : Creator → Tier
  | .randy => .low
  | .salty sc => sc.salter.tier

/-! ## Manager (manager.rs) -/

/-- Map a fallible function over a list, stopping at the first error
(collect over Result in the source). -/
def exceptMapList {α β : Type} (f : α → Except Err β) : List α → Except Err (List β)
  | [] => .ok []
  | a :: rest =>
    match f a with
    | .error e => .error e
    | .ok b =>
      match exceptMapList f rest with
      | .error e => .error e
      | .ok bs => .ok (b :: bs)

/-- The manager: a key store plus the presence of the encrypter/decrypter
pair.  The pair is built in Manager::new from a seed and an aeid whose
consistency check and Ed25519-to-X25519 conversion live behind the abstract
sealed box, so only its presence is tracked. -/
structure Manager where
  ks : Keeper
  hasEnc : Bool
  deriving DecidableEq

/-- The pidx key of the gbls bucket. -/
def gblsPidx : Str := ['p', 'i', 'd', 'x']

/-- The algo key of the gbls bucket. -/
def gblsAlgo : Str := ['a', 'l', 'g', 'o']

/-- The salt key of the gbls bucket. -/
def gblsSalt : Str := ['s', 'a', 'l', 't']

/-- The tier key of the gbls bucket. -/
def gblsTier : Str := ['t', 'i', 'e', 'r']

/-- The aeid key of the gbls bucket. -/
def gblsAeid : Str := ['a', 'e', 'i', 'd']

/-- Manager::pidx. -/
def Manager.pidxGet (m : Manager) : Option Nat :=
  (m.ks.getGbls gblsPidx).bind parseHexNat

/-- Manager::set_pidx. -/
def Manager.setPidx (m : Manager) (p : Nat) : Manager :=
  { m with ks := m.ks.pinGbls gblsPidx (natHexLower p) }

/-- Manager::salt, decrypting when an encrypter pair is present. -/
def Manager.saltGet (m : Manager) (env : Env) : Option Str :=
  match m.ks.getGbls gblsSalt with
  | none => none
  | some salt =>
    if m.hasEnc then
      match decrypterDecrypt env (strBytes salt) false with
      | .ok (.salterM s) => some s.qb64
      | _ => none
    else some salt

/-- Manager::tier. -/
def Manager.tierGet (m : Manager) : Option Tier :=
  match m.ks.getGbls gblsTier with
  | none => none
  | some s =>
    match tierFromStr s with
    | .ok t => some t
    | .error _ => none

/-- Manager::algo. -/
def Manager.algoGet (m : Manager) : Option Algos :=
  match m.ks.getGbls gblsAlgo with
  | none => none
  | some s =>
    match algosFromStr s with
    | .ok a => some a
    | .error _ => none

/-- Mirror of Manager::new: lazy initialization of the gbls bucket.  hasEnc
stands for a provided and verified (seed, aeid) pair. -/
def managerNew (env : Env) (ks0 : Option Keeper) (hasEnc : Bool)
    (aeid : Option Str) (pidx : Option Nat) (algo : Option Algos)
    (salter : Option Salter) (tier : Option Tier) : Except Err Manager :=
  let ks := ks0.getD Keeper.empty
  let pidx1 := pidx.getD 0
  let algo1 := algo.getD .salty
  let tier1 := tier.getD .low
  let ks1 :=
    if (ks.getGbls gblsPidx).isNone then ks.pinGbls gblsPidx (natHexLower pidx1) else ks
  let ks2 :=
    if (ks1.getGbls gblsAlgo).isNone then ks1.pinGbls gblsAlgo algo1.asStr else ks1
  let saltRes : Except Err Keeper :=
    match salter with
    | some sal =>
      if (ks2.getGbls gblsSalt).isNone then
        if hasEnc then
          match encrypterEncrypt env (strBytes sal.qb64) with
          | .error e => .error e
          | .ok cm => .ok (ks2.pinGbls gblsSalt cm.qb64)
        else .ok (ks2.pinGbls gblsSalt sal.qb64)
      else .ok ks2
    | none => .ok ks2
  match saltRes with
  | .error e => .error e
  | .ok ks3 =>
    let ks4 :=
      if (ks3.getGbls gblsTier).isNone then ks3.pinGbls gblsTier tier1.asStr else ks3
    let ks5 :=
      match aeid with
      | some a => ks4.pinGbls gblsAeid a
      | none => ks4
    .ok ⟨ks5, hasEnc⟩

/-- Store encrypted private keys for a list of signers, ignoring per-key
success flags as the source does. -/
def putPrisAll (env : Env) (ks : Keeper) (signers : List Signer) : Keeper :=
  signers.foldl (fun k s => (k.putPris env (Verfer.qb64 s.verfer) s).1) ks

/-- Path entries for a list of signers: public key to PubPath. -/
def pathEntries (signers : List Signer) (paths : List Str) (codes : List Str)
    (tier : Tier) (temp : Bool) : List (Str × PubPath) :=
  (signers.zip (paths.zip codes)).map
    (fun pe => (Verfer.qb64 pe.1.verfer, ⟨pe.2.1, pe.2.2, tier, temp⟩))

/-- Store path entries, ignoring per-key success flags as the source does. -/
def putPthsAll (ks : Keeper) (entries : List (Str × PubPath)) : Keeper :=
  entries.foldl (fun k e => (k.putPths e.1 e.2).1) ks

/-- Mirror of Manager::incept.  The pair returned is the manager in its
post-call state (the source mutates self.ks in place, so writes made before
a failure persist) and the call result. -/
def managerIncept (env : Env) (m : Manager)
    (icodes : Option (List Str)) (icount : Nat) (icode : Str)
    (ncodes : Option (List Str)) (ncount : Nat) (ncode : Str) (dcode : Str)
    (algo : Option Algos) (salt : Option Str) (stem : Option Str)
    (tier : Option Tier) (rooted transferable temp : Bool) :
    Manager × Except Err (List Verfer × List Diger) :=
  let algo1 := if rooted then (algo <|> m.algoGet).getD .salty else algo.getD .salty
  let msalt := m.saltGet env
  let salt1 := if rooted then salt <|> msalt else salt
  let tier1 := if rooted then (tier <|> m.tierGet).getD .low else tier.getD .low
  let pidx := m.pidxGet.getD 0
  match creatoryMake env algo1 salt1 (some tier1) stem with
  | .error e => (m, .error e)
  | .ok creator =>
    let icodes1 := icodes.getD (List.replicate icount icode)
    match creatorCreate env creator (some icodes1) 0 ['A'] transferable pidx 0 0 temp with
    | .error e => (m, .error e)
    | .ok ikeys =>
      let verfers := ikeys.signers.map (·.verfer)
      let ncodes1 := ncodes.getD (List.replicate ncount ncode)
      match creatorCreate env creator (some ncodes1) 0 ['A'] transferable
          pidx 1 icodes1.length temp with
      | .error e => (m, .error e)
      | .ok nkeys =>
        match exceptMapList
            (fun s => digerNew env dcode (strBytes (Verfer.qb64 s.verfer)))
            nkeys.signers with
        | .error e => (m, .error e)
        | .ok digers =>
          let saltPrmRes : Except Err Str :=
            if m.hasEnc then
              if creator.saltQb64 ≠ [] then
                match encrypterEncrypt env (strBytes creator.saltQb64) with
                | .error e => .error e
                | .ok cm => .ok cm.qb64
              else .ok []
            else .ok creator.saltQb64
          match saltPrmRes with
          | .error e => (m, .error e)
          | .ok saltPrm =>
            let pp : PrePrm := ⟨pidx, algo1, saltPrm, creator.stemOf, creator.tierOf⟩
            let dt := env.now
            let nw : PubLot := ⟨verfers.map Verfer.qb64, 0, 0, dt⟩
            let nt : PubLot :=
              ⟨nkeys.signers.map (fun s => Verfer.qb64 s.verfer), 1, icodes1.length, dt⟩
            let ps : PreSit := ⟨⟨[], 0, 0, []⟩, nw, nt⟩
            match verfers.head? with
            | none => (m, .error .other)
            | some v0 =>
              let pre := Verfer.qb64 v0
              let (ks1, ok1) := m.ks.putPres pre (strBytes pre)
              let m1 : Manager := { m with ks := ks1 }
              if ¬ ok1 then (m1, .error .other)
              else
                let (ks2, ok2) := m1.ks.putPrms pre pp
                let m2 : Manager := { m1 with ks := ks2 }
                if ¬ ok2 then (m2, .error .other)
                else
                  let m3 := m2.setPidx (pidx + 1)
                  let (ks4, ok4) := m3.ks.putSits pre ps
                  let m4 : Manager := { m3 with ks := ks4 }
                  if ¬ ok4 then (m4, .error .other)
                  else
                    let storedRes : Except Err Keeper :=
                      if m.hasEnc then
                        .ok (putPrisAll env (putPrisAll env m4.ks ikeys.signers)
                          nkeys.signers)
                      else
                        match ikeys.paths with
                        | some ipaths =>
                          let ks5 := putPthsAll m4.ks
                            (pathEntries ikeys.signers ipaths icodes1 tier1 temp)
                          match nkeys.paths with
                          | some npaths =>
                            .ok (putPthsAll ks5
                              (pathEntries nkeys.signers npaths ncodes1 tier1 temp))
                          | none => .ok ks5
                        | none => .error .other
                    match storedRes with
                    | .error e => (m4, .error e)
                    | .ok ks6 =>
                      let (ks7, _) := ks6.putPubs (riKey pre 0) ⟨ps.new.pubs⟩
                      let (ks8, _) := ks7.putPubs (riKey pre 1) ⟨ps.nxt.pubs⟩
                      ({ m with ks := ks8 }, .ok (verfers, digers))

/-- Mirror of Manager::rotate.  Note the forward-secrecy sweep at the end
removes the private keys of the PRE-shift old lot (bound before the ratchet
shift), not of the lot that just became old. -/
def managerRotate (env : Env) (m : Manager) (pre : Str)
    (ncodes : Option (List Str)) (ncount : Nat) (ncode : Str) (dcode : Str)
    (transferable temp : Bool) :
    Manager × Except Err (List Verfer × List Diger) :=
  match m.ks.getPrms pre with
  | none => (m, .error .other)
  | some pp =>
    match m.ks.getSits pre with
    | none => (m, .error .other)
    | some ps0 =>
      if ps0.nxt.pubs.isEmpty then (m, .error .other)
      else
        let old := ps0.old
        let psNew := ps0.nxt
        let psOld := ps0.new
        let verfersRes : Except Err (List Verfer) :=
          if m.hasEnc then
            exceptMapList
              (fun pub =>
                match m.ks.getPris env pub with
                | some s => .ok s.verfer
                | none => .error .other)
              psNew.pubs
          else exceptMapList verferFromQb64 psNew.pubs
        match verfersRes with
        | .error e => (m, .error e)
        | .ok verfers =>
          let saltRes : Except Err Str :=
            if pp.salt ≠ [] then
              if m.hasEnc then
                match decrypterDecrypt env (strBytes pp.salt) false with
                | .ok (.salterM s) => .ok s.qb64
                | _ => .error .other
              else .ok pp.salt
            else .ok ((m.saltGet env).getD [])
          match saltRes with
          | .error e => (m, .error e)
          | .ok salt =>
            match creatoryMake env pp.algo (some salt) (some pp.tier) (some pp.stem) with
            | .error e => (m, .error e)
            | .ok creator =>
              let ncodes1 := ncodes.getD (List.replicate ncount ncode)
              let ridx := psNew.ridx + 1
              let kidx := ps0.nxt.kidx + psNew.pubs.length
              match creatorCreate env creator (some ncodes1) 0 ['A'] transferable
                  pp.pidx ridx kidx temp with
              | .error e => (m, .error e)
              | .ok keys =>
                match exceptMapList
                    (fun s => digerNew env dcode (strBytes (Verfer.qb64 s.verfer)))
                    keys.signers with
                | .error e => (m, .error e)
                | .ok digers =>
                  let dt := env.now
                  let psNxt : PubLot :=
                    ⟨keys.signers.map (fun s => Verfer.qb64 s.verfer), ridx, kidx, dt⟩
                  let ps1 : PreSit := ⟨psOld, psNew, psNxt⟩
                  let ks1 := m.ks.pinSits pre ps1
                  let m1 : Manager := { m with ks := ks1 }
                  let storedRes : Except Err Keeper :=
                    if m.hasEnc then .ok (putPrisAll env m1.ks keys.signers)
                    else
                      match keys.paths with
                      | some paths =>
                        .ok (putPthsAll m1.ks
                          (pathEntries keys.signers paths ncodes1 pp.tier temp))
                      | none => .error .other
                  match storedRes with
                  | .error e => (m1, .error e)
                  | .ok ks2 =>
                    let (ks3, _) := ks2.putPubs (riKey pre psNxt.ridx) ⟨psNxt.pubs⟩
                    let ks4 := old.pubs.foldl (fun k pub => k.remPris pub) ks3
                    ({ m with ks := ks4 }, .ok (verfers, digers))

/-- Regenerate a signer from its stored path and the manager salt (the
unencrypted branch of Manager::sign). -/
def signRegen (env : Env) (m : Manager) (pub : Str) (transferable : Bool) :
    Except Err Signer :=
  match m.ks.getPths pub with
  | none => .error .other
  | some ppt =>
    match m.saltGet env with
    | none => .error .other
    | some salt =>
      match salterFromQb64 salt ppt.tier with
      | .error e => .error e
      | .ok salter =>
        salterSigner salter env ppt.code transferable ppt.path (some ppt.tier) ppt.temp

/-- Resolve a signer from a public key string (the pubs branch of
Manager::sign). -/
def signResolvePub (env : Env) (m : Manager) (pub : Str) : Except Err Signer :=
  if m.hasEnc then
    match m.ks.getPris env pub with
    | some s => .ok s
    | none => .error .other
  else
    match verferFromQb64 pub with
    | .error e => .error e
    | .ok verfer => signRegen env m pub verfer.transferable

/-- Resolve a signer from a Verfer (the verfers branch of Manager::sign). -/
def signResolveVerfer (env : Env) (m : Manager) (v : Verfer) : Except Err Signer :=
  if m.hasEnc then
    match m.ks.getPris env (Verfer.qb64 v) with
    | some s => .ok s
    | none => .error .other
  else signRegen env m (Verfer.qb64 v) v.transferable

/-- Siger::qb64. -/
def Siger.qb64 (s : Siger) : Str := s.indexer.qb64

/-- The indexed-signature loop of Manager::sign.  The index is the requested
one (cast to u32 in the source, hence the reduction) or the position. -/
def buildSigers (env : Env) (ser : Bytes) (indices : Option (List Nat)) :
    List Signer → Nat → Except Err Bytes
  | [], _ => .ok []
  | s :: rest, i =>
    let index :=
      (match indices with
       | some l => l.getD i 0
       | none => i) % 4294967296
    let sig := s.sign env ser
    let code : Str := if s.transferable then ['D'] else ['B']
    match sigerNew sig code index none (some s.verfer) with
    | .error e => .error e
    | .ok siger =>
      match buildSigers env ser indices rest (i + 1) with
      | .error e => .error e
      | .ok bs => .ok (strBytes siger.qb64 ++ bs)

/-- The non-indexed loop of Manager::sign: each signature is wrapped by
Cigar::new under the signer's VERIFIER code (D or B). -/
def buildCigars (env : Env) (ser : Bytes) : List Signer → Except Err Bytes
  | [] => .ok []
  | s :: rest =>
    let sig := s.sign env ser
    let code : Str := if s.transferable then ['D'] else ['B']
    match cigarNew sig code (some s.verfer) with
    | .error e => .error e
    | .ok cigar =>
      match buildCigars env ser rest with
      | .error e => .error e
      | .ok bs => .ok (strBytes cigar.matter.qb64 ++ bs)

/-- Mirror of Manager::sign. -/
def managerSign (env : Env) (m : Manager) (ser : Bytes)
    (pubs : Option (List Str)) (verfers : Option (List Verfer))
    (indexed : Bool) (indices : Option (List Nat)) : Except Err Bytes :=
  match pubs, verfers with
  | none, none => .error .invalidArgument
  | somePubs, someVerfers =>
    let signersRes : Except Err (List Signer) :=
      match somePubs with
      | some ps => exceptMapList (signResolvePub env m) ps
      | none =>
        match someVerfers with
        | some vs => exceptMapList (signResolveVerfer env m) vs
        | none => .ok []
    match signersRes with
    | .error e => .error e
    | .ok signers =>
      let idxOk : Except Err Unit :=
        match indices with
        | some idx =>
          if idx.length ≠ signers.length then .error .invalidArgument else .ok ()
        | none => .ok ()
      match idxOk with
      | .error e => .error e
      | .ok () =>
        if indexed then buildSigers env ser indices signers 0
        else buildCigars env ser signers

/-! ## Generic lemmas about the serialization layer -/

theorem mem_range_map_mod {n m : Nat} {f : Nat → Nat} (hm : 0 < m) :
    ∀ b ∈ (List.range n).map (fun i => f i % m), b < m := by
  intro b hb
  rcases List.mem_map.1 hb with ⟨i, _, rfl⟩
  exact Nat.mod_lt _ hm

theorem alookup_any {β : Type} {k : Str} {v : β} {l : List (Str × β)}
    (h : alookup k l = some v) : l.any (fun p => p.1 = k) = true :=
  List.any_eq_true.2 ⟨(k, v), alookup_mem h, by simp⟩

theorem alookup_map_replace {β : Type} {k : Str} (v' : β) :
    ∀ {l : List (Str × β)}, l.any (fun p => p.1 = k) = true →
      alookup k (l.map (fun p => if p.1 = k then (k, v') else p)) = some v' := by
  intro l
  induction l with
  | nil => intro h; cases h
  | cons p rest ih =>
    obtain ⟨k1, v1⟩ := p
    intro h
    by_cases hp : k1 = k
    · subst hp
      rw [show List.map (fun p : Str × β => if p.1 = k1 then (k1, v') else p)
            ((k1, v1) :: rest)
          = (k1, v') :: List.map (fun p : Str × β => if p.1 = k1 then (k1, v') else p)
            rest from by simp]
      simp only [alookup]
      simp
    · have hrest : rest.any (fun q => q.1 = k) = true := by
        simp only [List.any_cons, Bool.or_eq_true, decide_eq_true_eq] at h
        rcases h with h | h
        · exact absurd h hp
        · exact h
      rw [show List.map (fun p : Str × β => if p.1 = k then (k, v') else p)
            ((k1, v1) :: rest)
          = (k1, v1) :: List.map (fun p : Str × β => if p.1 = k then (k, v') else p)
            rest from by simp [hp]]
      simp only [alookup]
      rw [if_neg (fun he => hp he.symm)]
      exact ih hrest

theorem alookup_append_absent {β : Type} {k : Str} (v : β) :
    ∀ {l : List (Str × β)}, l.any (fun p => p.1 = k) = false →
      alookup k (l ++ [(k, v)]) = some v := by
  intro l
  induction l with
  | nil =>
    intro _
    simp only [List.nil_append, alookup]
    simp
  | cons p rest ih =>
    obtain ⟨k1, v1⟩ := p
    intro h
    simp only [List.any_cons, Bool.or_eq_false_iff, decide_eq_false_iff_not] at h
    simp only [List.cons_append, alookup]
    rw [if_neg (fun he => h.1 he.symm)]
    exact ih h.2

theorem objInsert_alookup (fs : List (Str × Json)) (k : Str) (v : Json) :
    alookup k (objInsert fs k v) = some v := by
  unfold objInsert
  split
  case isTrue h => exact alookup_map_replace v h
  case isFalse h =>
    exact alookup_append_absent v (by simp only [Bool.not_eq_true] at h; exact h)

theorem dumpsFields_replace_length (k : Str) (v' : Json) :
    ∀ (fs : List (Str × Json)),
      (∀ p ∈ fs, p.1 = k → (dumps v').length = (dumps p.2).length) →
      (dumpsFields (fs.map (fun p => if p.1 = k then (k, v') else p))).length
        = (dumpsFields fs).length := by
  intro fs
  induction fs with
  | nil => intro _; rfl
  | cons p rest ih =>
    intro h
    obtain ⟨k1, v1⟩ := p
    have hrest := ih (fun q hq hk => h q (List.mem_cons_of_mem _ hq) hk)
    by_cases hp : k1 = k
    · subst hp
      have hv := h (k1, v1) (by simp) rfl
      rw [show List.map (fun p : Str × Json => if p.1 = k1 then (k1, v') else p)
            ((k1, v1) :: rest)
          = (k1, v') :: List.map (fun p : Str × Json => if p.1 = k1 then (k1, v') else p)
            rest from by simp]
      cases rest with
      | nil =>
        simp only [List.map_nil, dumpsFields, List.length_append, List.length_cons]
        simp only at hv
        omega
      | cons q rest' =>
        rw [show List.map (fun p : Str × Json => if p.1 = k1 then (k1, v') else p)
              (q :: rest')
            = ((fun p : Str × Json => if p.1 = k1 then (k1, v') else p) q)
              :: List.map (fun p : Str × Json => if p.1 = k1 then (k1, v') else p)
              rest' from by simp] at hrest ⊢
        simp only [dumpsFields, List.length_append, List.length_cons]
        simp only at hv hrest
        omega
    · rw [show List.map (fun p : Str × Json => if p.1 = k then (k, v') else p)
            ((k1, v1) :: rest)
          = (k1, v1) :: List.map (fun p : Str × Json => if p.1 = k then (k, v') else p)
            rest from by simp [hp]]
      cases rest with
      | nil => simp
      | cons q rest' =>
        rw [show List.map (fun p : Str × Json => if p.1 = k then (k, v') else p)
              (q :: rest')
            = ((fun p : Str × Json => if p.1 = k then (k, v') else p) q)
              :: List.map (fun p : Str × Json => if p.1 = k then (k, v') else p)
              rest' from by simp] at hrest ⊢
        simp only [dumpsFields, List.length_append, List.length_cons]
        simp only at hrest
        omega

theorem escapeStr_id {s : Str} (h : ∀ c ∈ s, escapeChar c = [c]) :
    escapeStr s = s := by
  induction s with
  | nil => rfl
  | cons c rest ih =>
    simp only [escapeStr, List.map_cons, List.flatten_cons]
    rw [h c (by simp)]
    simp only [List.singleton_append, List.cons_inj_right]
    exact ih (fun c hc => h c (List.mem_cons_of_mem _ hc))

theorem dumps_str_length {s : Str} (h : ∀ c ∈ s, escapeChar c = [c]) :
    (dumps (Json.str s)).length = s.length + 2 := by
  simp [dumps, escapeStr_id h]

/-! ## Facts about the hex renderings -/

theorem hexDigitLower_escape : ∀ d < 16, escapeChar (hexDigitLower d) = [hexDigitLower d] := by
  decide

theorem hexDigitLower_upper_escape :
    ∀ d < 16, escapeChar (hexDigitLower d).toUpper = [(hexDigitLower d).toUpper] := by
  decide

theorem hexStrAux_escape : ∀ fuel n, ∀ c ∈ hexStrAux fuel n, escapeChar c = [c] := by
  intro fuel
  induction fuel with
  | zero => intro n c hc; cases hc
  | succ fuel ih =>
    intro n c hc
    simp only [hexStrAux] at hc
    split at hc
    · cases hc
    · rcases List.mem_append.1 hc with h | h
      · exact ih _ c h
      · rcases List.mem_singleton.1 h with rfl
        exact hexDigitLower_escape _ (Nat.mod_lt _ (by omega))

theorem hexStr_escape : ∀ n, ∀ c ∈ hexStr n, escapeChar c = [c] := by
  intro n c hc
  unfold hexStr at hc
  split at hc
  · rcases List.mem_singleton.1 hc with rfl; decide
  · exact hexStrAux_escape _ _ c hc

theorem hexStrAux_len_le : ∀ fuel n k, n < 16 ^ k → (hexStrAux fuel n).length ≤ k := by
  intro fuel
  induction fuel with
  | zero => intro n k _; simp [hexStrAux]
  | succ fuel ih =>
    intro n k hk
    simp only [hexStrAux]
    split
    · simp
    case isFalse hn =>
      have hk1 : k ≠ 0 := by
        intro h
        rw [h] at hk
        omega
      have hdiv : n / 16 < 16 ^ (k - 1) := by
        rw [Nat.div_lt_iff_lt_mul (by omega)]
        calc n < 16 ^ k := hk
        _ = 16 ^ (k - 1) * 16 := by
          rw [← Nat.pow_succ]
          congr 1
          omega
      have := ih (n / 16) (k - 1) hdiv
      simp only [List.length_append, List.length_cons, List.length_nil]
      omega

theorem hexStr_len_le6 {n : Nat} (h : n < 16 ^ 6) : (hexStr n).length ≤ 6 := by
  unfold hexStr
  split
  · simp
  · exact hexStrAux_len_le n n 6 h

theorem padHex6_length {n : Nat} (h : n < 16 ^ 6) : (padHex6 n).length = 6 := by
  have := hexStr_len_le6 h
  simp only [padHex6, List.length_append, List.length_replicate]
  omega

theorem padHex6_escape (n : Nat) : ∀ c ∈ padHex6 n, escapeChar c = [c] := by
  intro c hc
  rcases List.mem_append.1 hc with h | h
  · rcases List.eq_of_mem_replicate h with rfl; decide
  · exact hexStr_escape n c h

theorem natDec_lt10 : ∀ n < 10, natDec n = [Char.ofNat (48 + n)] := by
  decide

/-! ## Structure of the rendered version string -/

theorem versify_length {proto : Protocols} {ver : Version} {size : Nat}
    (hmaj : ver.major < 10) (hmin : ver.minor < 10) (hsize : size < 16 ^ 6) :
    (versify proto (some ver) (some .json) size).length = 17 := by
  have h6 := padHex6_length hsize
  cases proto <;>
    simp [versify, Protocols.asStr, Serials.asStr, natDec_lt10 _ hmaj,
      natDec_lt10 _ hmin, h6]

theorem hexStrAux_mem_digit : ∀ fuel n, ∀ c ∈ hexStrAux fuel n,
    ∃ d, d < 16 ∧ c = hexDigitLower d := by
  intro fuel
  induction fuel with
  | zero => intro n c hc; cases hc
  | succ fuel ih =>
    intro n c hc
    simp only [hexStrAux] at hc
    split at hc
    · cases hc
    · rcases List.mem_append.1 hc with h | h
      · exact ih _ c h
      · rcases List.mem_singleton.1 h with rfl
        exact ⟨n % 16, Nat.mod_lt _ (by omega), rfl⟩

theorem hexStr_mem_digit : ∀ n, ∀ c ∈ hexStr n, ∃ d, d < 16 ∧ c = hexDigitLower d := by
  intro n c hc
  unfold hexStr at hc
  split at hc
  · rcases List.mem_singleton.1 hc with rfl
    exact ⟨0, by omega, rfl⟩
  · exact hexStrAux_mem_digit _ _ c hc

theorem padHex6_mem_digit (n : Nat) : ∀ c ∈ padHex6 n, ∃ d, d < 16 ∧ c = hexDigitLower d := by
  intro c hc
  rcases List.mem_append.1 hc with h | h
  · rcases List.eq_of_mem_replicate h with rfl
    exact ⟨0, by omega, rfl⟩
  · exact hexStr_mem_digit n c h

/-- Every character of a rendered version string passes through serde_json
escaping unchanged. -/
theorem versify_escape {proto : Protocols} {ver : Version} {size : Nat}
    (hmaj : ver.major < 10) (hmin : ver.minor < 10) :
    ∀ c ∈ versify proto (some ver) (some .json) size, escapeChar c = [c] := by
  intro c hc
  simp only [versify, Option.getD_some, List.mem_append] at hc
  rcases hc with ((((h | h) | h) | h) | h) | h
  · cases proto <;> (simp only [Protocols.asStr] at h; fin_cases h <;> decide)
  · rw [natDec_lt10 _ hmaj] at h
    rcases List.mem_singleton.1 h with rfl
    interval_cases hv : ver.major <;> decide
  · rw [natDec_lt10 _ hmin] at h
    rcases List.mem_singleton.1 h with rfl
    interval_cases hv : ver.minor <;> decide
  · simp only [Serials.asStr] at h; fin_cases h <;> decide
  · rcases List.mem_map.1 h with ⟨c0, hc0, rfl⟩
    rcases padHex6_mem_digit size c0 hc0 with ⟨d, hd, rfl⟩
    exact hexDigitLower_upper_escape d hd
  · rcases List.mem_singleton.1 h with rfl; decide

/-! ## Digest wrapping under an arbitrary environment -/

theorem digestCodes_rawSize : ∀ c ∈ digestCodes, rawSize c = .ok (digRawLen c) := by
  decide

theorem digestCodes_sizage : ∀ c ∈ digestCodes, (sizage c).isOk = true := by
  decide

theorem matterFromRaw_dig (env : Env) (c : Str) (hc : c ∈ digestCodes) (b : Bytes) :
    matterFromRaw (env.dig c b) c =
      .ok ⟨c, env.dig c b, c ++ b64Encode (env.dig c b), strBytes c ++ env.dig c b⟩ := by
  have hlen := env.dig_len c hc b
  fin_cases hc <;>
    (simp only [digRawLen] at hlen
     simp only [matterFromRaw]
     first
       | rw [show sizage ['E'] = Except.ok ⟨1, 0, some 44, 0⟩ from by decide,
             show rawSize ['E'] = Except.ok 32 from by decide]
       | rw [show sizage ['0', 'D'] = Except.ok ⟨2, 0, some 88, 0⟩ from by decide,
             show rawSize ['0', 'D'] = Except.ok 64 from by decide]
       | rw [show sizage ['I'] = Except.ok ⟨1, 0, some 44, 0⟩ from by decide,
             show rawSize ['I'] = Except.ok 32 from by decide]
       | rw [show sizage ['0', 'G'] = Except.ok ⟨2, 0, some 88, 0⟩ from by decide,
             show rawSize ['0', 'G'] = Except.ok 64 from by decide]
       | rw [show sizage ['H'] = Except.ok ⟨1, 0, some 44, 0⟩ from by decide,
             show rawSize ['H'] = Except.ok 32 from by decide]
       | rw [show sizage ['0', 'F'] = Except.ok ⟨2, 0, some 88, 0⟩ from by decide,
             show rawSize ['0', 'F'] = Except.ok 64 from by decide]
     simp [hlen])

theorem digerNew_ok (env : Env) (c : Str) (hc : c ∈ digestCodes) (b : Bytes) :
    digerNew env c b =
      .ok ⟨⟨c, env.dig c b, c ++ b64Encode (env.dig c b), strBytes c ++ env.dig c b⟩⟩ := by
  have hdec : (c ∈ digestCodes) = True := eq_true hc
  simp only [digerNew, computeDigest, hdec, if_true, matterFromRaw_dig env c hc b]

/-! ## A concrete environment

All theorems below that quantify over an environment are witnessed at this
executable instance; counterexample runs also use it.  The primitives are
cheap byte mixers with the right output sizes — nothing about them beyond the
length and range laws is used in any universal theorem. -/

/-- A spreading byte mixer used by the concrete primitives. -/
def mix (s : Bytes) : Nat :=
  s.foldl (fun h b => (h * 257 + b + 1) % 4611686018427387904) 1

/-- The concrete environment. -/
def envC : Env where
  dig := fun c s => (List.range (digRawLen c)).map (fun i => (mix s + i * 37) % 256)
  pk := fun s => (List.range 32).map (fun i => (mix s + i * 41 + 3) % 256)
  edSign := fun k m => (List.range 64).map (fun i => (mix (k ++ 0 :: m) + i * 5) % 256)
  stretch := fun salt n path o mem =>
    (List.range n).map (fun i => (mix (salt ++ strBytes path ++ [o, mem]) + i * 43) % 256)
  sealBox := fun x => ((List.range 48).map (fun i => (mix x + i) % 256)) ++ x
  unsealBox := fun y => some (y.drop 48)
  randSeed := fun i => (List.range 32).map (fun j => (i * 131 + j * 17 + 7) % 256)
  randSalt := List.replicate 16 7
  now := ['t', '0']
  dig_len := fun c _ s => by simp
  dig_lt := fun c s => mem_range_map_mod (by omega)
  pk_len := fun s => by simp
  pk_lt := fun s => mem_range_map_mod (by omega)
  edSign_len := fun k m => by simp
  edSign_lt := fun k m => mem_range_map_mod (by omega)
  stretch_len := fun salt n path o mem => by simp
  stretch_lt := fun salt n path o mem => mem_range_map_mod (by omega)
  randSeed_len := fun i => by simp
  randSeed_lt := fun i => mem_range_map_mod (by omega)
  randSalt_len := by simp
  randSalt_lt := by simp

set_option maxRecDepth 40000

/-! ## Claim C1: what serialization the SAID is computed over -/

/-- Specification model of the SAID derivation, for comparison with the
source's saidify: replace the label value with a string of hash characters of
the digest code's full qb64 size (44 for BLAKE3-256), rewrite a present
version string to embed the measured byte size as six lowercase hex digits,
serialize, hash, and write the digest qb64 into the label. -/
def saidifySpecModel (env : Env) (sad : Json) : Except Err (Saider × Json) :=
  match sad with
  | .obj fs =>
    if fs.any (fun p => p.1 = ['d']) then
      let fs1 := objInsert fs ['d'] (.str (List.replicate 44 '#'))
      let fs2 :=
        match alookup ['v'] fs1 with
        | some (.str vstr) =>
          match deversify vstr with
          | .ok (proto, version, kind, _) =>
            objInsert fs1 ['v']
              (.str (proto.asStr ++ natDec version.major ++ natDec version.minor ++
                kind.asStr ++ padHex6 (dumps (Json.obj fs1)).length ++ ['_']))
          | .error _ => fs1
        | _ => fs1
      let digest := env.dig ['E'] (strBytes (dumps (Json.obj fs2)))
      match matterFromRaw digest ['E'] with
      | .error e => .error e
      | .ok m => .ok (⟨m⟩, Json.obj (objInsert fs2 ['d'] (.str m.qb64)))
    else .error .invalidEvent
  | _ => .error .invalidEvent

/-- A SAD with a version string, an ilk, a d label and a payload field. -/
def sadC1 : List (Str × Json) := [
  (['v'], .str "KERI10JSON000000_".toList),
  (['t'], .str "icp".toList),
  (['d'], .str []),
  (['x'], .str "hello".toList)]

/-- C1 (counterexample): on a SAD carrying a version string, the digest the
source's saidify computes differs from the one prescribed by the spec (hash
over the SAD with the label replaced by 44 hash characters and v rewritten to
embed the size): saidify hashes the SAD with the label set to the empty
string and v untouched. -/
theorem claimC1_counterexample :
    ∃ r1 r2, saidify envC (Json.obj sadC1) = .ok r1 ∧
      saidifySpecModel envC (Json.obj sadC1) = .ok r2 ∧
      r1.1.matter.raw ≠ r2.1.matter.raw ∧ r1.2 ≠ r2.2 :=
  ⟨_, _, rfl, rfl, by decide, by decide⟩

/-- C1 (amended): saidify on an object carrying the d label succeeds and its
digest is the BLAKE3-256 hash of the serialization in which the d label holds
the EMPTY string — no hash-character dummy is substituted and the version
string is not rewritten — and the digest qb64 is then written into d. -/
theorem claimC1_saidify (env : Env) (fs : List (Str × Json))
    (h : fs.any (fun p => p.1 = ['d']) = true) :
    saidify env (Json.obj fs) =
      (let raw := env.dig ['E'] (strBytes (dumps (Json.obj (objInsert fs ['d'] (.str [])))));
       let m : Matter := ⟨['E'], raw, ['E'] ++ b64Encode raw, strBytes ['E'] ++ raw⟩;
       .ok (⟨m⟩, Json.obj (objInsert (objInsert fs ['d'] (.str [])) ['d'] (.str m.qb64)))) := by
  simp only [saidify, saidifyWithLabel, h, if_true,
    digerNew_ok env ['E'] (by decide), matterFromRaw_dig env ['E'] (by decide)]

/-- C1 witness: the amended theorem applied at the concrete environment and
SAD. -/
theorem claimC1_witness :
    sadC1.any (fun p => p.1 = ['d']) = true ∧
    saidify envC (Json.obj sadC1) =
      (let raw := envC.dig ['E']
        (strBytes (dumps (Json.obj (objInsert sadC1 ['d'] (.str [])))));
       let m : Matter := ⟨['E'], raw, ['E'] ++ b64Encode raw, strBytes ['E'] ++ raw⟩;
       .ok (⟨m⟩, Json.obj (objInsert (objInsert sadC1 ['d'] (.str [])) ['d']
         (.str m.qb64)))) :=
  ⟨by decide, claimC1_saidify envC sadC1 (by decide)⟩

/-! ## Claim C10: Serder::from_raw performs no size or SAID validation -/

/-- C10: from_raw accepts any parsed JSON object whose v field deversifies,
taking the size from v without comparing it to the input length and keeping
the d field as-is; the loaded Serder preserves the (possibly mismatched)
values. -/
theorem claimC10_from_raw_unchecked (raw : Str) (sad : Json) (vstr : Str)
    (proto : Protocols) (ver : Version) (kind : Serials) (size : Nat)
    (hv : jgetStr sad ['v'] = some vstr)
    (hd : deversify vstr = .ok (proto, ver, kind, size)) :
    ∃ s, serderFromRawParsed raw sad = .ok s ∧ s.raw = raw ∧ s.sad = sad ∧
      s.size = size := by
  simp only [serderFromRawParsed, hv, hd]
  exact ⟨_, rfl, rfl, rfl, rfl⟩

/-- A record whose v declares size 0xfb = 251 and whose d is no digest of
anything. -/
def sadC10 : List (Str × Json) := [
  (['v'], .str "KERI10JSON0000fb_".toList),
  (['d'], .str "BADSAIDBADSAIDBADSAIDBADSAIDBADSAIDBADSAID".toList),
  (['x'], .str "y".toList)]

/-- The raw text handed to from_raw alongside the parsed record; 9 bytes, not
the declared 251. -/
def rawC10 : Str := "shortraw!".toList

/-- C10 witness: loading a record whose declared size (251) disagrees with
the actual byte length (9) and whose d field is garbage succeeds and
preserves the mismatched values. -/
theorem claimC10_witness :
    jgetStr (Json.obj sadC10) ['v'] = some "KERI10JSON0000fb_".toList ∧
    deversify "KERI10JSON0000fb_".toList = .ok (.keri, ⟨1, 0⟩, .json, 251) ∧
    rawC10.length = 9 ∧
    jgetStr (Json.obj sadC10) ['d'] =
      some "BADSAIDBADSAIDBADSAIDBADSAIDBADSAIDBADSAID".toList ∧
    (∃ s, serderFromRawParsed rawC10 (Json.obj sadC10) = .ok s ∧ s.raw = rawC10 ∧
      s.sad = Json.obj sadC10 ∧ s.size = 251) :=
  ⟨by decide, by decide, by decide, by decide,
    claimC10_from_raw_unchecked rawC10 (Json.obj sadC10) "KERI10JSON0000fb_".toList
      .keri ⟨1, 0⟩ .json 251 (by decide) (by decide)⟩

/-! ## Claim C9: index bounds of Indexer::new and Siger::new -/

theorem indexerValid_sizage (code : Str) (h : indexerValidCode code = true) :
    ∃ sz, indexerSizage code = some sz := by
  have h' := h
  simp only [indexerValidCode, decide_eq_true_eq] at h'
  rcases h' with rfl | rfl | rfl | rfl | rfl | rfl | rfl | rfl | rfl | rfl | rfl | rfl |
    rfl | rfl | rfl | rfl <;> exact ⟨_, rfl⟩

theorem indexerNew_eval (raw : Bytes) (code : Str) (index : Nat) (ondex : Option Nat)
    (sz : IndexerSizage) (hvalid : indexerValidCode code = true)
    (hsz : indexerSizage code = some sz) :
    indexerNew raw code index ondex =
      (if index > (if indexerIsBig code then 16383 else 63) then .error .invalidIndex
       else if ondex.getD index > (if indexerIsBig code then 16383 else 63) then
         .error .invalidIndex
       else .ok ⟨raw, code, index, ondex.getD index⟩) := by
  simp only [indexerNew, hsz]
  simp only [hvalid, not_true, if_false]
  by_cases hb : indexerIsBig code = true
  · simp only [hb, if_true]
    by_cases h1 : index > 16383
    · simp [h1]
    · by_cases h2 : ondex.getD index > 16383 <;> simp [h1, h2]
  · rw [Bool.not_eq_true] at hb
    simp only [hb, Bool.false_eq_true, if_false]
    by_cases h1 : index > 63
    · simp [h1]
    · by_cases h2 : ondex.getD index > 63 <;> simp [h1, h2]

/-- C9: for a valid indexer code, construction fails with an index error
exactly when the index or the (defaulted) ondex exceeds 63 for a small code
or 16383 for a big code; in range it succeeds with ondex defaulting to
index; and Siger::new fails on the same condition. -/
theorem claimC9_indexer_bounds (raw : Bytes) (code : Str) (index : Nat)
    (ondex : Option Nat) (hvalid : indexerValidCode code = true) :
    (indexerNew raw code index ondex = .error .invalidIndex ↔
      (if indexerIsBig code then 16383 else 63) < index ∨
      (if indexerIsBig code then 16383 else 63) < ondex.getD index) ∧
    (index ≤ (if indexerIsBig code then 16383 else 63) →
      ondex.getD index ≤ (if indexerIsBig code then 16383 else 63) →
      indexerNew raw code index ondex = .ok ⟨raw, code, index, ondex.getD index⟩) ∧
    (sigerNew raw code index ondex none = .error .invalidIndex ↔
      (if indexerIsBig code then 16383 else 63) < index ∨
      (if indexerIsBig code then 16383 else 63) < ondex.getD index) := by
  obtain ⟨sz, hsz⟩ := indexerValid_sizage code hvalid
  have he := indexerNew_eval raw code index ondex sz hvalid hsz
  have hs : sigerNew raw code index ondex none =
      (match indexerNew raw code index ondex with
       | .error e => .error e
       | .ok ix => .ok ⟨ix, none⟩) := by
    simp [sigerNew, hvalid]
  rw [hs, he]
  split_ifs with h1 h2 <;> (refine ⟨?_, ?_, ?_⟩ <;> simp_all)

/-- C9 witness: a big code at the boundary indices. -/
theorem claimC9_witness :
    indexerValidCode ['2', 'A'] = true ∧
    ((indexerNew [] ['2', 'A'] 16384 none = .error .invalidIndex ↔
      (if indexerIsBig ['2', 'A'] then 16383 else 63) < 16384 ∨
      (if indexerIsBig ['2', 'A'] then 16383 else 63) < (none : Option Nat).getD 16384) ∧
    (16384 ≤ (if indexerIsBig ['2', 'A'] then 16383 else 63) →
      (none : Option Nat).getD 16384 ≤ (if indexerIsBig ['2', 'A'] then 16383 else 63) →
      indexerNew [] ['2', 'A'] 16384 none =
        .ok ⟨[], ['2', 'A'], 16384, (none : Option Nat).getD 16384⟩) ∧
    (sigerNew [] ['2', 'A'] 16384 none none = .error .invalidIndex ↔
      (if indexerIsBig ['2', 'A'] then 16383 else 63) < 16384 ∨
      (if indexerIsBig ['2', 'A'] then 16383 else 63) < (none : Option Nat).getD 16384)) :=
  ⟨by decide, claimC9_indexer_bounds [] ['2', 'A'] 16384 none (by decide)⟩

/-! ## Claim C4: the non-indexed path of Manager::sign -/

/-- C4 (the bug): whenever the requested public keys resolve to at least one
signer, Manager::sign with indexed = false fails with InvalidSize 32/64: the
64-byte Ed25519 signature is wrapped by Cigar::new under the VERIFIER code
(D or B), whose raw size is 32, so Matter::from_raw always rejects it.  No
set of resolvable keys can produce Cigars. -/
theorem claimC4_nonindexed_sign_fails (env : Env) (m : Manager) (ser : Bytes)
    (ps : List Str) (s0 : Signer) (rest : List Signer)
    (hres : exceptMapList (signResolvePub env m) ps = .ok (s0 :: rest)) :
    managerSign env m ser (some ps) none false none = .error (.invalidSize 32 64) := by
  have hlen : (Signer.sign env s0 ser).length = 64 := env.edSign_len _ _
  have hms : managerSign env m ser (some ps) none false none =
      (match exceptMapList (signResolvePub env m) ps with
       | .error e => (.error e : Except Err Bytes)
       | .ok signers => buildCigars env ser signers) := rfl
  rw [hms, hres]
  show buildCigars env ser (s0 :: rest) = .error (.invalidSize 32 64)
  by_cases ht : Signer.transferable s0 = true
  · simp only [buildCigars, ht, if_true, cigarNew]
    simp only [matterFromRaw,
      show sizage ['D'] = Except.ok ⟨1, 0, some 44, 0⟩ from by decide,
      show rawSize ['D'] = Except.ok 32 from by decide]
    simp [hlen]
  · rw [Bool.not_eq_true] at ht
    simp only [buildCigars, ht, Bool.false_eq_true, if_false, cigarNew]
    simp only [matterFromRaw,
      show sizage ['B'] = Except.ok ⟨1, 0, some 44, 0⟩ from by decide,
      show rawSize ['B'] = Except.ok 32 from by decide]
    simp [hlen]

/-- Manager used to witness C4: encrypted store, Randy algorithm, one key. -/
def c4m0 : Manager :=
  (managerNew envC none true none none (some .randy) none none).toOption.getD
    ⟨Keeper.empty, true⟩

/-- Incept run for the C4 witness. -/
def c4istate : Manager × Except Err (List Verfer × List Diger) :=
  managerIncept envC c4m0 none 1 ['A'] none 1 ['A'] ['E'] (some .randy) none none none
    false true false

/-- Post-incept manager for the C4 witness. -/
def c4m : Manager := c4istate.1

/-- The incepted public keys for the C4 witness. -/
def c4pubs : List Str :=
  match c4istate.2 with
  | .ok (vs, _) => vs.map Verfer.qb64
  | .error _ => []

/-- Message signed in the C4 witness. -/
def serC4 : Bytes := strBytes "hello".toList

/-- C4 witness: a concrete manager with one resolvable key; the non-indexed
sign call fails with InvalidSize 32/64. -/
theorem claimC4_witness :
    managerSign envC c4m serC4 (some c4pubs) none false none =
      .error (.invalidSize 32 64) :=
  claimC4_nonindexed_sign_fails envC c4m serC4 c4pubs _ _ rfl

/-! ## Claims C5 and C6: rotation forward secrecy and failure atomicity -/

/-- Ok test for Except results. -/
def isOkE {α : Type} : Except Err α → Bool
  | .ok _ => true
  | .error _ => false

/-- C5 pipeline: encrypted store, Randy algorithm. -/
def c5m0 : Manager :=
  (managerNew envC none true none none (some .randy) none none).toOption.getD
    ⟨Keeper.empty, true⟩

/-- C5 incept: current lot of two keys, next lot of two keys. -/
def c5istate : Manager × Except Err (List Verfer × List Diger) :=
  managerIncept envC c5m0 none 2 ['A'] none 2 ['A'] ['E'] (some .randy) none none none
    false true false

/-- Post-incept manager. -/
def c5m1 : Manager := c5istate.1

/-- The incepted current public keys k0, k1. -/
def c5cur : List Str :=
  match c5istate.2 with
  | .ok (vs, _) => vs.map Verfer.qb64
  | .error _ => []

/-- The incepted identifier prefix (first current key). -/
def c5pre : Str := c5cur.getD 0 []

/-- C5 first rotation. -/
def c5rstate : Manager × Except Err (List Verfer × List Diger) :=
  managerRotate envC c5m1 c5pre none 2 ['A'] ['E'] true false

/-- Manager after the first rotation. -/
def c5m2 : Manager := c5rstate.1

/-- Keys k2, k3 returned by the first rotation (the former next lot). -/
def c5new : List Str :=
  match c5rstate.2 with
  | .ok (vs, _) => vs.map Verfer.qb64
  | .error _ => []

/-- C5 second rotation. -/
def c5r2state : Manager × Except Err (List Verfer × List Diger) :=
  managerRotate envC c5m2 c5pre none 2 ['A'] ['E'] true false

/-- Manager after the second rotation. -/
def c5m3 : Manager := c5r2state.1

/-- Keys returned by the second rotation. -/
def c5new2 : List Str :=
  match c5r2state.2 with
  | .ok (vs, _) => vs.map Verfer.qb64
  | .error _ => []

/-- Message signed in the C5 runs. -/
def serC5 : Bytes := strBytes "abc".toList

/-- C5 (counterexample): after incept with current lot {k0, k1} and one
rotate, the rotation did return the former next lot and the stored old lot is
{k0, k1}, but signing with pubs = {k0, k1} SUCCEEDS: the sweep at the end of
rotate removes the private keys of the PRE-shift old lot, which is empty
after the first rotation, so k0 and k1 are not yet purged. -/
theorem claimC5_counterexample :
    isOkE c5istate.2 = true ∧ isOkE c5rstate.2 = true ∧
    ((c5m1.ks.getSits c5pre).map fun ps => ps.nxt.pubs) = some c5new ∧
    ((c5m2.ks.getSits c5pre).map fun ps => ps.old.pubs) = some c5cur ∧
    isOkE (managerSign envC c5m2 serC5 (some c5cur) none true none) = true := by
  decide

/-- C5 (amended): the first rotation returns the former next lot and stores
{k0, k1} as the old lot; signing with the old keys still succeeds after one
rotation (their private material survives) and only fails after a second
rotation, whose sweep covers the lot that was old BEFORE its shift; signing
with the keys returned by the latest rotation succeeds throughout. -/
theorem claimC5_purge_lags_one_rotation :
    isOkE c5rstate.2 = true ∧
    ((c5m1.ks.getSits c5pre).map fun ps => ps.nxt.pubs) = some c5new ∧
    ((c5m2.ks.getSits c5pre).map fun ps => ps.old.pubs) = some c5cur ∧
    isOkE (managerSign envC c5m2 serC5 (some c5cur) none true none) = true ∧
    isOkE (managerSign envC c5m2 serC5 (some c5new) none true none) = true ∧
    managerSign envC c5m3 serC5 (some c5cur) none true none = .error .other ∧
    isOkE (managerSign envC c5m3 serC5 (some c5new2) none true none) = true := by
  decide

/-- C6 pipeline: unencrypted store, Randy algorithm (the failing storage
branch of incept and rotate). -/
def c6m0 : Manager :=
  (managerNew envC none false none none (some .randy) none none).toOption.getD
    ⟨Keeper.empty, false⟩

/-- C6 incept run (fails: Randy keys cannot be stored without encryption). -/
def c6istate : Manager × Except Err (List Verfer × List Diger) :=
  managerIncept envC c6m0 none 2 ['A'] none 2 ['A'] ['E'] (some .randy) none none none
    false true false

/-- Manager after the failed incept. -/
def c6m1 : Manager := c6istate.1

/-- The prefix the failed incept derived (first Randy verfer). -/
def c6pre : Str :=
  match signerNewRandom envC 0 ['A'] true with
  | .ok s => Verfer.qb64 s.verfer
  | .error _ => []

/-- C6 rotate run on the partially written store (also fails, after having
pinned the shifted PreSit). -/
def c6rstate : Manager × Except Err (List Verfer × List Diger) :=
  managerRotate envC c6m1 c6pre none 2 ['A'] ['E'] true false

/-- Manager after the failed rotate. -/
def c6m2 : Manager := c6rstate.1

/-- C6 (counterexample): a failed rotate is not atomic: it returns an error
yet the stored PreSit has changed — the ratchet has shifted (the new lot of
the post-call state is the pre-call next lot). -/
theorem claimC6_counterexample :
    c6rstate.2 = .error .other ∧
    c6m2.ks.getSits c6pre ≠ c6m1.ks.getSits c6pre ∧
    ((c6m2.ks.getSits c6pre).map fun ps => ps.new.pubs)
      = ((c6m1.ks.getSits c6pre).map fun ps => ps.nxt.pubs) := by
  decide

/-- C6 (amended): incept and rotate are not atomic on failure.  The failing
incept leaves pres, prms, an incremented pidx and a full PreSit behind in a
store that had none of them, and the failing rotate leaves the ratchet
shifted (old takes the pre-call new lot, new takes the pre-call next lot)
while reporting an error. -/
theorem claimC6_partial_writes_on_failure :
    c6istate.2 = .error .other ∧
    c6m1.ks.getPres c6pre = some (strBytes c6pre) ∧
    Option.isSome (c6m1.ks.getPrms c6pre) = true ∧
    c6m1.pidxGet = some 1 ∧
    Option.isSome (c6m1.ks.getSits c6pre) = true ∧
    c6m0.ks.getSits c6pre = none ∧
    c6m0.ks.getPres c6pre = none ∧
    c6rstate.2 = .error .other ∧
    ((c6m2.ks.getSits c6pre).map fun ps => ps.old.pubs)
      = ((c6m1.ks.getSits c6pre).map fun ps => ps.new.pubs) ∧
    ((c6m2.ks.getSits c6pre).map fun ps => ps.new.pubs)
      = ((c6m1.ks.getSits c6pre).map fun ps => ps.nxt.pubs) := by
  decide

/-! ## Claim C3: the rotation ratchet -/

theorem exceptMapList_comp {α β γ : Type} (f : β → Except Err γ) (g : α → β) :
    ∀ l : List α, exceptMapList f (l.map g) = exceptMapList (fun x => f (g x)) l := by
  intro l
  induction l with
  | nil => rfl
  | cons a rest ih => simp only [List.map_cons, exceptMapList, ih]

theorem putPris_sits (ks : Keeper) (env : Env) (pub : Str) (s : Signer) :
    ((ks.putPris env pub s).1).sits = ks.sits := by
  unfold Keeper.putPris
  split
  · rfl
  · split <;> rfl

theorem putPrisAll_sits (env : Env) : ∀ (signers : List Signer) (ks : Keeper),
    (putPrisAll env ks signers).sits = ks.sits := by
  intro signers
  induction signers with
  | nil => intro ks; rfl
  | cons s rest ih =>
    intro ks
    rw [show putPrisAll env ks (s :: rest)
        = putPrisAll env ((ks.putPris env (Verfer.qb64 s.verfer) s).1) rest from rfl,
      ih, putPris_sits]

theorem putPths_sits (ks : Keeper) (pub : Str) (v : PubPath) :
    ((ks.putPths pub v).1).sits = ks.sits := by
  unfold Keeper.putPths
  split <;> rfl

theorem putPthsAll_sits : ∀ (entries : List (Str × PubPath)) (ks : Keeper),
    (putPthsAll ks entries).sits = ks.sits := by
  intro entries
  induction entries with
  | nil => intro ks; rfl
  | cons e rest ih =>
    intro ks
    rw [show putPthsAll ks (e :: rest) = putPthsAll ((ks.putPths e.1 e.2).1) rest from rfl,
      ih, putPths_sits]

theorem putPubs_sits (ks : Keeper) (k : Str) (v : PubSet) :
    ((ks.putPubs k v).1).sits = ks.sits := by
  unfold Keeper.putPubs
  split <;> rfl

theorem remPrisFold_sits : ∀ (pubs : List Str) (ks : Keeper),
    (pubs.foldl (fun k pub => k.remPris pub) ks).sits = ks.sits := by
  intro pubs
  induction pubs with
  | nil => intro ks; rfl
  | cons p rest ih =>
    intro ks
    rw [List.foldl_cons, ih]
    rfl

theorem pinAssoc_alookup {β : Type} (l : List (Str × β)) (k : Str) (v : β) :
    alookup k (pinAssoc l k v) = some v := by
  unfold pinAssoc
  split
  case isTrue h => exact alookup_map_replace v h
  case isFalse h =>
    exact alookup_append_absent v (by simp only [Bool.not_eq_true] at h; exact h)

/-- C3: when rotate succeeds for a prefix whose stored PreSit is ps0, the
stored PreSit afterwards has old = the pre-call new lot, new = the pre-call
nxt lot, and a next lot at rotation index nxt.ridx + 1 and key index
nxt.kidx + |nxt.pubs| whose members digest (under dcode) exactly to the
returned digers. -/
theorem claimC3_rotate_ratchet (env : Env) (m : Manager) (pre : Str)
    (ncodes : Option (List Str)) (ncount : Nat) (ncode dcode : Str)
    (transferable temp : Bool) (m' : Manager) (vs : List Verfer) (ds : List Diger)
    (ps0 : PreSit) (hsits : m.ks.getSits pre = some ps0)
    (hrot : managerRotate env m pre ncodes ncount ncode dcode transferable temp
      = (m', .ok (vs, ds))) :
    ∃ ps1, m'.ks.getSits pre = some ps1 ∧
      ps1.old = ps0.new ∧ ps1.new = ps0.nxt ∧
      ps1.nxt.ridx = ps0.nxt.ridx + 1 ∧
      ps1.nxt.kidx = ps0.nxt.kidx + ps0.nxt.pubs.length ∧
      exceptMapList (fun pub => digerNew env dcode (strBytes pub)) ps1.nxt.pubs
        = .ok ds := by
  unfold managerRotate at hrot
  split at hrot
  · simp at hrot
  case h_2 pp hprm =>
  rw [hsits] at hrot
  simp only [] at hrot
  split at hrot
  · simp at hrot
  case isFalse hne =>
  split at hrot
  · simp at hrot
  case h_2 verfers hverf =>
  split at hrot
  · simp at hrot
  case h_2 salt hsalt =>
  split at hrot
  · simp at hrot
  case h_2 creator hcreator =>
  split at hrot
  · simp at hrot
  case h_2 keys hkeys =>
  split at hrot
  · simp at hrot
  case h_2 digers hdigers =>
  split at hrot
  · simp at hrot
  case h_2 ks2 hstored =>
  simp only [Prod.mk.injEq, Except.ok.injEq] at hrot
  obtain ⟨hm', hvs, hds⟩ := hrot
  subst hm'
  subst hds
  refine ⟨⟨ps0.new, ps0.nxt,
    ⟨keys.signers.map (fun s => Verfer.qb64 s.verfer), ps0.nxt.ridx + 1,
      ps0.nxt.kidx + ps0.nxt.pubs.length, env.now⟩⟩, ?_, rfl, rfl, rfl, rfl, ?_⟩
  · have hks2 : ks2.sits = (m.ks.pinSits pre ⟨ps0.new, ps0.nxt,
        ⟨keys.signers.map (fun s => Verfer.qb64 s.verfer), ps0.nxt.ridx + 1,
          ps0.nxt.kidx + ps0.nxt.pubs.length, env.now⟩⟩).sits := by
      split at hstored
      · injection hstored with h
        rw [← h]
        exact putPrisAll_sits env _ _
      · split at hstored
        · injection hstored with h
          rw [← h]
          exact putPthsAll_sits _ _
        · cases hstored
    simp only [Keeper.getSits]
    rw [remPrisFold_sits, putPubs_sits, hks2]
    exact pinAssoc_alookup _ _ _
  · rw [exceptMapList_comp]
    exact hdigers

/-- The PreSit stored for the C5 prefix after incept. -/
def c5ps0 : PreSit :=
  (c5m1.ks.getSits c5pre).getD ⟨⟨[], 0, 0, []⟩, ⟨[], 0, 0, []⟩, ⟨[], 0, 0, []⟩⟩

/-- Verfers returned by the first C5 rotation. -/
def c5vs : List Verfer :=
  match c5rstate.2 with
  | .ok (vs, _) => vs
  | .error _ => []

/-- Digers returned by the first C5 rotation. -/
def c5ds : List Diger :=
  match c5rstate.2 with
  | .ok (_, ds) => ds
  | .error _ => []

/-- C3 witness: the ratchet theorem applied to the concrete rotation of the
C5 pipeline. -/
theorem claimC3_witness :
    c5m1.ks.getSits c5pre = some c5ps0 ∧
    managerRotate envC c5m1 c5pre none 2 ['A'] ['E'] true false
      = (c5m2, .ok (c5vs, c5ds)) ∧
    (∃ ps1, c5m2.ks.getSits c5pre = some ps1 ∧
      ps1.old = c5ps0.new ∧ ps1.new = c5ps0.nxt ∧
      ps1.nxt.ridx = c5ps0.nxt.ridx + 1 ∧
      ps1.nxt.kidx = c5ps0.nxt.kidx + c5ps0.nxt.pubs.length ∧
      exceptMapList (fun pub => digerNew envC ['E'] (strBytes pub)) ps1.nxt.pubs
        = .ok c5ds) :=
  ⟨by decide, by decide,
    claimC3_rotate_ratchet envC c5m1 c5pre none 2 ['A'] ['E'] true false c5m2 c5vs
      c5ds c5ps0 (by decide) (by decide)⟩

/-! ## Claim C2: inception events and Prefixer::verify -/

/-- Verify an event under the Prefixer parsed from its own i field. -/
def eventVerifies (e : Serder) (prefixed : Bool) : Except Err Bool :=
  match jgetStr e.sad ['i'] with
  | none => .error .invalidFormat
  | some i =>
    match prefixerFromQb64 i with
    | .error err => .error err
    | .ok p => prefixerVerify p e prefixed

/-- Verification outcome of a fallibly built event. -/
def verifyOf (e : Except Err Serder) : Except Err Bool :=
  match e with
  | .error err => .error err
  | .ok ev => eventVerifies ev true

/-- Rebuild an event with its k field replaced (the swapped-key experiment of
the spec: a Serder is assembled over the modified SAD). -/
def swapK0 (e : Except Err Serder) (newKeys : List Str) : Except Err Serder :=
  match e with
  | .error err => .error err
  | .ok ev =>
    match ev.sad with
    | .obj fs => serderNew (Json.obj (objInsert fs ['k'] (.arr (newKeys.map .str)))) none none
    | _ => .error .invalidEvent

/-- The k field of a fallibly built event. -/
def keysOf (e : Except Err Serder) : Option (List Json) :=
  match e with
  | .ok ev => jgetArr ev.sad ['k']
  | .error _ => none

/-- A transferable (D) key. -/
def kD0 : Str :=
  match signerNewRandom envC 10 ['A'] true with
  | .ok s => Verfer.qb64 s.verfer
  | .error _ => []

/-- A second transferable key. -/
def kD1 : Str :=
  match signerNewRandom envC 11 ['A'] true with
  | .ok s => Verfer.qb64 s.verfer
  | .error _ => []

/-- A transferable key used for swapping. -/
def kDX : Str :=
  match signerNewRandom envC 12 ['A'] true with
  | .ok s => Verfer.qb64 s.verfer
  | .error _ => []

/-- A non-transferable (B) key. -/
def kB0 : Str :=
  match signerNewRandom envC 13 ['A'] false with
  | .ok s => Verfer.qb64 s.verfer
  | .error _ => []

/-- A non-transferable key used for swapping. -/
def kBX : Str :=
  match signerNewRandom envC 14 ['A'] false with
  | .ok s => Verfer.qb64 s.verfer
  | .error _ => []

/-- Inception with the ED25519N derivation (single B key, no code argument). -/
def c2eB : Except Err Serder :=
  incept envC [kB0] none [] none none none none none none none none false none

/-- Inception with the ED25519 derivation (single D key, no code argument). -/
def c2eD : Except Err Serder :=
  incept envC [kD0] none [] none none none none none none none none false none

/-- Inception with the BLAKE3-256 derivation (two keys, code E). -/
def c2eE : Except Err Serder :=
  incept envC [kD0, kD1] none [] none none none none none none none (some ['E'])
    false none

/-- The BLAKE3 inception with k[0] swapped for a different key. -/
def c2eE' : Except Err Serder := swapK0 c2eE [kDX, kD1]

/-- C2 (counterexample): swapping k[0] of a BLAKE3-256-derived inception for
a different key does NOT make Prefixer::verify return false: verification
still succeeds, because verify_blake3_256 only compares the d (and i) field
strings with the prefix and never recomputes the digest over the event. -/
theorem claimC2_counterexample :
    isOkE c2eE = true ∧ isOkE c2eE' = true ∧
    keysOf c2eE' ≠ keysOf c2eE ∧
    keysOf c2eE' = some [.str kDX, .str kD1] ∧ kDX ≠ kD0 ∧
    verifyOf c2eE' = .ok true := by
  decide

/-- C2 (amended): inception events assembled by incept verify under
Prefixer::verify(event, prefixed = true) for all three derivation codes, and
swapping k[0] with a different key flips verification to false for the
ED25519N and ED25519 derivations only; for BLAKE3-256 the swapped event still
verifies (see the counterexample). -/
theorem claimC2_inception_verification :
    verifyOf c2eB = .ok true ∧ verifyOf c2eD = .ok true ∧ verifyOf c2eE = .ok true ∧
    isOkE (swapK0 c2eB [kBX]) = true ∧ isOkE (swapK0 c2eD [kDX]) = true ∧
    verifyOf (swapK0 c2eB [kBX]) = .ok false ∧
    verifyOf (swapK0 c2eD [kDX]) = .ok false := by
  decide

/-! ## Claim C7: the size field of the version string -/

theorem versify_drop10_take6 {proto : Protocols} {ver : Version} {size : Nat}
    (hmaj : ver.major < 10) (hmin : ver.minor < 10) (hsize : size < 16 ^ 6) :
    ((versify proto (some ver) (some .json) size).drop 10).take 6
      = (padHex6 size).map Char.toUpper := by
  have h6 : ((padHex6 size).map Char.toUpper).length = 6 := by
    rw [List.length_map]
    exact padHex6_length hsize
  cases proto <;>
    (simp only [versify, Protocols.asStr, Serials.asStr, Option.getD_some,
      natDec_lt10 _ hmaj, natDec_lt10 _ hmin, List.cons_append, List.nil_append,
      List.drop_succ_cons, List.drop_zero]
     exact List.take_left' h6)

/-- C7 (amended): for a SAD whose v value is a well-formed 17-character
version string of escape-free characters, Serder::new succeeds, its declared
size equals the byte length of its serialization, and the size field of the
embedded version string is the six-digit UPPERCASE hex rendering of that
length (versify upper-cases the hex it embeds). -/
theorem claimC7_version_size (fs : List (Str × Json)) (vstr : Str)
    (proto : Protocols) (ver : Version) (kind0 : Serials) (size0 : Nat)
    (hv : alookup ['v'] fs = some (.str vstr))
    (hvAll : ∀ p ∈ fs, p.1 = ['v'] → p.2 = Json.str vstr)
    (hd : deversify vstr = .ok (proto, ver, kind0, size0))
    (hlen : vstr.length = 17)
    (hesc : ∀ c ∈ vstr, escapeChar c = [c])
    (hmaj : ver.major < 10) (hmin : ver.minor < 10)
    (hsize : (dumps (Json.obj fs)).length < 16 ^ 6) :
    ∃ s, serderNew (Json.obj fs) none none = .ok s ∧
      s.size = s.raw.length ∧
      jgetStr s.sad ['v'] = some (versify proto (some ver) (some .json) s.raw.length) ∧
      ((versify proto (some ver) (some .json) s.raw.length).drop 10).take 6
        = (padHex6 s.raw.length).map Char.toUpper := by
  have hjv : jgetStr (Json.obj fs) ['v'] = some vstr := by
    simp only [jgetStr, jget, hv]
  have hany : fs.any (fun p => p.1 = ['v']) = true := alookup_any hv
  have hnewesc := @versify_escape proto ver ((dumps (Json.obj fs)).length) hmaj hmin
  have hnewlen := @versify_length proto ver ((dumps (Json.obj fs)).length) hmaj hmin hsize
  have hpoint : ∀ p ∈ fs, p.1 = ['v'] →
      (dumps (Json.str (versify proto (some ver) (some .json)
        (dumps (Json.obj fs)).length))).length = (dumps p.2).length := by
    intro p hp hk
    rw [hvAll p hp hk, dumps_str_length hnewesc, dumps_str_length hesc, hnewlen, hlen]
  have hobj : objInsert fs ['v'] (.str (versify proto (some ver) (some .json)
      (dumps (Json.obj fs)).length))
      = fs.map (fun p => if p.1 = ['v'] then (['v'], Json.str (versify proto (some ver)
        (some .json) (dumps (Json.obj fs)).length)) else p) := by
    unfold objInsert
    rw [if_pos hany]
  have hgen : ∀ w : Json, (∀ p ∈ fs, p.1 = ['v'] → (dumps w).length = (dumps p.2).length) →
      (dumps (Json.obj (objInsert fs ['v'] w))).length = (dumps (Json.obj fs)).length := by
    intro w hw
    rw [show objInsert fs ['v'] w = fs.map (fun p => if p.1 = ['v'] then (['v'], w) else p)
      from by unfold objInsert; rw [if_pos hany]]
    have h2 := dumpsFields_replace_length ['v'] w fs hw
    simp only [dumps, List.length_cons, List.length_append, List.length_nil]
    rw [h2]
  have hlenpres : (dumps (Json.obj (objInsert fs ['v'] (.str (versify proto (some ver)
      (some .json) (dumps (Json.obj fs)).length))))).length
      = (dumps (Json.obj fs)).length :=
    hgen _ hpoint
  refine ⟨⟨dumps (Json.obj (objInsert fs ['v'] (.str (versify proto (some ver)
      (some .json) (dumps (Json.obj fs)).length)))),
    Json.obj (objInsert fs ['v'] (.str (versify proto (some ver) (some .json)
      (dumps (Json.obj fs)).length))), proto, .json,
    (dumps (Json.obj (objInsert fs ['v'] (.str (versify proto (some ver) (some .json)
      (dumps (Json.obj fs)).length))))).length, ver, ['E']⟩, ?_, rfl, ?_, ?_⟩
  · simp only [serderNew, sizeify, hjv, hd, dumpsKind, Option.getD]
  · rw [hlenpres]
    simp only [jgetStr, jget, objInsert_alookup]
  · rw [hlenpres]
    exact versify_drop10_take6 hmaj hmin hsize

/-- The SAD of the C7 counterexample: serializes to 106 = 0x6a bytes. -/
def sadC7 : List (Str × Json) := [
  (['v'], .str "KERI10JSON000000_".toList),
  (['t'], .str "icp".toList),
  (['d'], .str (List.replicate 44 'E')),
  (['x'], .str "fillerfiller1".toList)]

/-- C7 (counterexample): the size field of the version string a Serder
embeds is NOT lowercase hex: for a SAD serializing to 0x6a bytes the
embedded field is 00006A (versify calls to_uppercase on the hex it formats),
while the spec prescribes 00006a.  Lowercasing the embedded field recovers
the lowercase rendering of the size, so the two differ exactly in case. -/
theorem claimC7_counterexample :
    ∃ s, serderNew (Json.obj sadC7) none none = .ok s ∧
      s.size = s.raw.length ∧
      (∃ v, jgetStr s.sad ['v'] = some v ∧
        (v.drop 10).take 6 ≠ padHex6 s.size ∧
        ((v.drop 10).take 6).map Char.toLower = padHex6 s.size) :=
  ⟨_, rfl, rfl, _, rfl, by decide, by decide⟩

/-- C7 witness: the amended theorem applied at the concrete SAD. -/
theorem claimC7_witness :
    alookup ['v'] sadC7 = some (.str "KERI10JSON000000_".toList) ∧
    deversify "KERI10JSON000000_".toList = .ok (.keri, ⟨1, 0⟩, .json, 0) ∧
    (∃ s, serderNew (Json.obj sadC7) none none = .ok s ∧
      s.size = s.raw.length ∧
      jgetStr s.sad ['v'] = some (versify .keri (some ⟨1, 0⟩) (some .json) s.raw.length) ∧
      ((versify .keri (some ⟨1, 0⟩) (some .json) s.raw.length).drop 10).take 6
        = (padHex6 s.raw.length).map Char.toUpper) :=
  ⟨by decide, by decide,
    claimC7_version_size sadC7 "KERI10JSON000000_".toList .keri ⟨1, 0⟩ .json 0
      (by decide) (by decide) (by decide) (by decide) (by decide) (by decide)
      (by decide) (by decide)⟩

end Signify
